import Mathlib

/-!
# Verification of the `py_rust_module` user/calculator extension module

Shallow embedding of the Rust sources (`src/lib.rs` and the per-function
duplicate files).  Machine integers `i32`/`i64` are modelled as `Int`; the
`i32` range appears explicitly wherever the Rust code range-checks
(`serde_json` deserialization of `i32`, pyo3 `extract::<i32>()`).  The
`serde_json` serializer and deserializer used by `User::json`,
`User::json_pretty` and `User::from_json` are embedded as an executable
printer and an executable recursive-descent parser over `List Char`,
following `serde_json`'s grammar (whitespace skipping, string escapes with
`\uXXXX` and surrogate pairs, the integer/float distinction, the
leading-zero rule) and serde's derived field-visitor semantics (fields
matched by name in declaration order `id, name, email, age, active`,
duplicate known field is an error, unknown fields skipped, missing fields
reported after the map ends, structs also deserializable from a sequence).
-/

namespace PyRustModule

/-! ## The User record (src/lib.rs, src/user.rs) -/

structure User where
  id : Int
  name : String
  email : String
  age : Int
  active : Bool
deriving DecidableEq

/-- The `i32` range; pyo3 `extract::<i32>` and serde_json `i32`
deserialization both enforce it. -/
def inI32 (n : Int) : Prop := -(2 ^ 31) ≤ n ∧ n < 2 ^ 31

instance (n : Int) : Decidable (inI32 n) := by unfold inI32; infer_instance

/-! ## JSON values

`serde_json::Value`-like tree.  A JSON number with integer syntax carries
its exact value; a number with a fraction or exponent part is `jfloat`
(its numeric value is irrelevant here: deserializing any of `User`'s
fields from a float is an invalid-type error in serde_json, which is the
only way the code ever consumes one). -/

inductive Json where
  | jnull
  | jbool (b : Bool)
  | jint (n : Int)
  | jfloat
  | jstr (s : String)
  | jarr (xs : List Json)
  | jobj (kvs : List (String × Json))

/-! ## Decimal digits -/

def digitChar (n : Nat) : Char := Char.ofNat (48 + n)

def isDigit (c : Char) : Bool := 48 ≤ c.toNat && c.toNat ≤ 57

/-- Digits of `n`, most significant first, via explicit fuel (structurally
recursive so that the kernel can evaluate it). -/
def natDigitsAux : Nat → Nat → List Char
  | 0, _ => []
  | f + 1, n => if n < 10 then [digitChar n] else natDigitsAux f (n / 10) ++ [digitChar (n % 10)]

def natDigits (n : Nat) : List Char := natDigitsAux (n + 1) n

/-- Decimal rendering of an `i64`/`i32` value, as Rust's `itoa`/`Display`
produce it: optional leading minus, no leading zeros, `0 ↦ "0"`. -/
def intChars (i : Int) : List Char :=
  if i < 0 then '-' :: natDigits i.natAbs else natDigits i.toNat

/-! ## serde_json string escaping (serde_json `ser.rs` default formatter):
`"` and `\` get two-character escapes, the named control characters
`\b \t \n \f \r` likewise, all other control characters below `0x20`
become `\u00XX` with lowercase hex, everything else is emitted raw. -/

def hexDigitChar (n : Nat) : Char :=
  Char.ofNat (if n < 10 then 48 + n else 87 + n)

def escapeChar (c : Char) : List Char :=
  if c = '"' then ['\\', '"']
  else if c = '\\' then ['\\', '\\']
  else if c = '\x08' then ['\\', 'b']
  else if c = '\x09' then ['\\', 't']
  else if c = '\x0a' then ['\\', 'n']
  else if c = '\x0c' then ['\\', 'f']
  else if c = '\x0d' then ['\\', 'r']
  else if c.toNat < 0x20 then ['\\', 'u', '0', '0', hexDigitChar (c.toNat / 16), hexDigitChar (c.toNat % 16)]
  else [c]

def escList : List Char → List Char
  | [] => []
  | c :: cs => escapeChar c ++ escList cs

def boolChars (b : Bool) : List Char := if b then ['t', 'r', 'u', 'e'] else ['f', 'a', 'l', 's', 'e']

/-! ## The two encoders (`User::json`, `User::json_pretty`)

`serde_json::to_string` writes the five fields in declaration order with
no whitespace; `serde_json::to_string_pretty` uses two-space indentation,
`": "` after each key and `,\n` between members.  Serialization of this
fixed shape cannot fail (the `Err` branch of the Rust code is
unreachable), so the encoders are total here. -/

def compactChars (u : User) : List Char :=
  "\x7b\"id\":".data ++ intChars u.id ++
  ",\"name\":\"".data ++ escList u.name.data ++
  "\",\"email\":\"".data ++ escList u.email.data ++
  "\",\"age\":".data ++ intChars u.age ++
  ",\"active\":".data ++ boolChars u.active ++ "\x7d".data

def prettyChars (u : User) : List Char :=
  "\x7b\n  \"id\": ".data ++ intChars u.id ++
  ",\n  \"name\": \"".data ++ escList u.name.data ++
  "\",\n  \"email\": \"".data ++ escList u.email.data ++
  "\",\n  \"age\": ".data ++ intChars u.age ++
  ",\n  \"active\": ".data ++ boolChars u.active ++ "\n\x7d".data

def User.json (u : User) : String := ⟨compactChars u⟩

def User.json_pretty (u : User) : String := ⟨prettyChars u⟩

/-- The JSON value `serde_json` serializes a `User` to: an object with the
five keys in field-declaration order. -/
def userJsonValue (u : User) : Json :=
  .jobj [("id", .jint u.id), ("name", .jstr u.name), ("email", .jstr u.email),
         ("age", .jint u.age), ("active", .jbool u.active)]

/-! ## The JSON parser (serde_json `de.rs` / `read.rs`)

Recursive-descent parser over `List Char`.  Whitespace (space, tab, LF,
CR) is skipped between tokens; strings support the eight simple escapes
and `\uXXXX` (with surrogate pairs, and errors on lone surrogates and on
raw control characters); numbers follow the JSON grammar with the
leading-zero restriction, and a fraction or exponent part makes the
number a float.  Recursion on nested values and on member/element lists
is bounded by explicit fuel; the top-level entry supplies one unit of
fuel per input character plus one, which can never be exhausted before a
genuine syntax error because every recursive step consumes at least one
character. -/

def isWsChar (c : Char) : Bool := c = ' ' || c = '\n' || c = '\t' || c = '\r'

def skipWs : List Char → List Char
  | [] => []
  | c :: cs => if isWsChar c then skipWs cs else c :: cs

def hexDigitVal (c : Char) : Option Nat :=
  if 48 ≤ c.toNat ∧ c.toNat ≤ 57 then some (c.toNat - 48)
  else if 97 ≤ c.toNat ∧ c.toNat ≤ 102 then some (c.toNat - 87)
  else if 65 ≤ c.toNat ∧ c.toNat ≤ 70 then some (c.toNat - 55)
  else none

def parseHex4 : List Char → Option (Nat × List Char)
  | a :: b :: c :: d :: rest =>
    match hexDigitVal a, hexDigitVal b, hexDigitVal c, hexDigitVal d with
    | some va, some vb, some vc, some vd => some (((va * 16 + vb) * 16 + vc) * 16 + vd, rest)
    | _, _, _, _ => none
  | _ => none

def simpleEscape (e : Char) : Option Char :=
  if e = '"' then some '"'
  else if e = '\\' then some '\\'
  else if e = '/' then some '/'
  else if e = 'b' then some '\x08'
  else if e = 'f' then some '\x0c'
  else if e = 'n' then some '\x0a'
  else if e = 'r' then some '\x0d'
  else if e = 't' then some '\x09'
  else none

/-- Body of a string literal, after the opening quote.  Returns the
decoded characters and the input after the closing quote. -/
def parseStringBody : Nat → List Char → Option (List Char × List Char)
  | 0, _ => none
  | _ + 1, [] => none
  | g + 1, c :: rest =>
    if c = '"' then some ([], rest)
    else if c = '\\' then
      match rest with
      | [] => none
      | e :: rest2 =>
        if e = 'u' then
          match parseHex4 rest2 with
          | some (n, rest3) =>
            if n < 0xd800 ∨ 0xdfff < n then
              (parseStringBody g rest3).map (fun p => (Char.ofNat n :: p.1, p.2))
            else if n ≤ 0xdbff then
              match rest3 with
              | '\\' :: 'u' :: rest4 =>
                match parseHex4 rest4 with
                | some (m, rest5) =>
                  if 0xdc00 ≤ m ∧ m ≤ 0xdfff then
                    (parseStringBody g rest5).map
                      (fun p => (Char.ofNat (0x10000 + (n - 0xd800) * 0x400 + (m - 0xdc00)) :: p.1, p.2))
                  else none
                | none => none
              | _ => none
            else none
          | none => none
        else
          match simpleEscape e with
          | some d => (parseStringBody g rest2).map (fun p => (d :: p.1, p.2))
          | none => none
    else if c.toNat < 0x20 then none
    else (parseStringBody g rest).map (fun p => (c :: p.1, p.2))

/-- Fold decimal digits from the head of the input. -/
def parseDigitsAux (acc : Nat) : List Char → Nat × List Char
  | [] => (acc, [])
  | c :: cs => if isDigit c then parseDigitsAux (acc * 10 + (c.toNat - 48)) cs else (acc, c :: cs)

def headIsDigit : List Char → Bool
  | [] => false
  | c :: _ => isDigit c

/-- Exponent part after `e`/`E`: optional sign then at least one digit. -/
def parseExpTail2 (cs : List Char) : Option (List Char) :=
  if headIsDigit cs then some (parseDigitsAux 0 cs).2 else none

def parseExpTail : List Char → Option (List Char)
  | [] => none
  | c :: rest => if c = '+' ∨ c = '-' then parseExpTail2 rest else parseExpTail2 (c :: rest)

def parseExpOpt : List Char → Option (List Char)
  | [] => some []
  | c :: rest => if c = 'e' ∨ c = 'E' then parseExpTail rest else some (c :: rest)

/-- After the integer part with value `m`: an optional fraction and
exponent.  The boolean result is true when the number has float syntax. -/
def parseFracExp (m : Nat) : List Char → Option ((Bool × Nat) × List Char)
  | [] => some ((false, m), [])
  | c :: rest =>
    if c = '.' then
      if headIsDigit rest then
        match parseExpOpt (parseDigitsAux 0 rest).2 with
        | some r => some ((true, 0), r)
        | none => none
      else none
    else if c = 'e' ∨ c = 'E' then
      match parseExpTail rest with
      | some r => some ((true, 0), r)
      | none => none
    else some ((false, m), c :: rest)

/-- Unsigned number: one digit `0` (not followed by another digit) or a
nonzero leading digit with its digit string. -/
def parseNumAfterSign : List Char → Option ((Bool × Nat) × List Char)
  | [] => none
  | c :: rest =>
    if c = '0' then
      if headIsDigit rest then none else parseFracExp 0 rest
    else if isDigit c then
      let p := parseDigitsAux 0 (c :: rest)
      parseFracExp p.1 p.2
    else none

def parseNumber : List Char → Option (Json × List Char)
  | [] => none
  | c :: rest =>
    if c = '-' then
      match parseNumAfterSign rest with
      | some ((isF, m), r) => some (if isF then .jfloat else .jint (-(m : Int)), r)
      | none => none
    else
      match parseNumAfterSign (c :: rest) with
      | some ((isF, m), r) => some (if isF then .jfloat else .jint (m : Int), r)
      | none => none

mutual

def parseValue : Nat → List Char → Option (Json × List Char)
  | 0, _ => none
  | f + 1, cs =>
    match skipWs cs with
    | [] => none
    | c :: cs1 =>
      if c = '{' then
        match skipWs cs1 with
        | '}' :: cs2 => some (.jobj [], cs2)
        | _ => (parseMembers f cs1).map (fun p => (.jobj p.1, p.2))
      else if c = '[' then
        match skipWs cs1 with
        | ']' :: cs2 => some (.jarr [], cs2)
        | _ => (parseElems f cs1).map (fun p => (.jarr p.1, p.2))
      else if c = '"' then
        (parseStringBody (cs1.length + 1) cs1).map (fun p => (.jstr ⟨p.1⟩, p.2))
      else if c = 't' then
        match cs1 with
        | 'r' :: 'u' :: 'e' :: r => some (.jbool true, r)
        | _ => none
      else if c = 'f' then
        match cs1 with
        | 'a' :: 'l' :: 's' :: 'e' :: r => some (.jbool false, r)
        | _ => none
      else if c = 'n' then
        match cs1 with
        | 'u' :: 'l' :: 'l' :: r => some (.jnull, r)
        | _ => none
      else parseNumber (c :: cs1)

/-- One or more `"key": value` members, ending at `}`. -/
def parseMembers : Nat → List Char → Option (List (String × Json) × List Char)
  | 0, _ => none
  | f + 1, cs =>
    match skipWs cs with
    | '"' :: cs1 =>
      match parseStringBody (cs1.length + 1) cs1 with
      | some (key, cs2) =>
        match skipWs cs2 with
        | ':' :: cs3 =>
          match parseValue f cs3 with
          | some (v, cs4) =>
            match skipWs cs4 with
            | ',' :: cs5 => (parseMembers f cs5).map (fun p => ((⟨key⟩, v) :: p.1, p.2))
            | '}' :: cs5 => some ([(⟨key⟩, v)], cs5)
            | _ => none
          | none => none
        | _ => none
      | none => none
    | _ => none

/-- One or more array elements, ending at `]`. -/
def parseElems : Nat → List Char → Option (List Json × List Char)
  | 0, _ => none
  | f + 1, cs =>
    match parseValue f cs with
    | some (v, cs1) =>
      match skipWs cs1 with
      | ',' :: cs2 => (parseElems f cs2).map (fun p => (v :: p.1, p.2))
      | ']' :: cs2 => some ([v], cs2)
      | _ => none
    | none => none

end

/-- Parse one JSON value from the whole input. -/
def jsonParse (cs : List Char) : Option (Json × List Char) :=
  parseValue (cs.length + 1) cs

/-! ## Deserialization of `User` (serde derive semantics)

`#[derive(Deserialize)]` on `User` generates a visitor whose map path
matches keys against the field names, errors on a duplicate known field,
skips unknown fields (no `deny_unknown_fields` attribute is present on
the struct), and reports the first missing field in declaration order
after the map is exhausted; its seq path reads the five fields
positionally.  `i32` fields additionally enforce the `i32` range. -/

def asI32 (v : Json) : Except String Int :=
  match v with
  | .jint n => if -(2 ^ 31) ≤ n ∧ n < 2 ^ 31 then .ok n else .error "number out of range of i32"
  | _ => .error "invalid type, expected i32"

def asStr (v : Json) : Except String String :=
  match v with
  | .jstr s => .ok s
  | _ => .error "invalid type, expected a string"

def asBool (v : Json) : Except String Bool :=
  match v with
  | .jbool b => .ok b
  | _ => .error "invalid type, expected a boolean"

/-- The generated `visit_map`: fields held in `Option` slots, filled as
keys arrive in map order. -/
def visitMap : List (String × Json) → Option Int → Option String → Option String →
    Option Int → Option Bool → Except String User
  | [], fid, fname, femail, fage, factive =>
    match fid with
    | none => .error "missing field id"
    | some id =>
      match fname with
      | none => .error "missing field name"
      | some name =>
        match femail with
        | none => .error "missing field email"
        | some email =>
          match fage with
          | none => .error "missing field age"
          | some age =>
            match factive with
            | none => .error "missing field active"
            | some active => .ok ⟨id, name, email, age, active⟩
  | (k, v) :: rest, fid, fname, femail, fage, factive =>
    if k = "id" then
      match fid with
      | some _ => .error "duplicate field id"
      | none =>
        match asI32 v with
        | .ok n => visitMap rest (some n) fname femail fage factive
        | .error e => .error e
    else if k = "name" then
      match fname with
      | some _ => .error "duplicate field name"
      | none =>
        match asStr v with
        | .ok s => visitMap rest fid (some s) femail fage factive
        | .error e => .error e
    else if k = "email" then
      match femail with
      | some _ => .error "duplicate field email"
      | none =>
        match asStr v with
        | .ok s => visitMap rest fid fname (some s) fage factive
        | .error e => .error e
    else if k = "age" then
      match fage with
      | some _ => .error "duplicate field age"
      | none =>
        match asI32 v with
        | .ok n => visitMap rest fid fname femail (some n) factive
        | .error e => .error e
    else if k = "active" then
      match factive with
      | some _ => .error "duplicate field active"
      | none =>
        match asBool v with
        | .ok b => visitMap rest fid fname femail fage (some b)
        | .error e => .error e
    else visitMap rest fid fname femail fage factive

def nextEl (xs : List Json) : Except String (Json × List Json) :=
  match xs with
  | [] => .error "invalid length"
  | x :: xs => .ok (x, xs)

/-- The generated `visit_seq`: the five fields read positionally;
serde_json then requires the sequence to end. -/
def visitSeq (xs : List Json) : Except String User := do
  let (x0, xs) ← nextEl xs
  let id ← asI32 x0
  let (x1, xs) ← nextEl xs
  let name ← asStr x1
  let (x2, xs) ← nextEl xs
  let email ← asStr x2
  let (x3, xs) ← nextEl xs
  let age ← asI32 x3
  let (x4, xs) ← nextEl xs
  let active ← asBool x4
  match xs with
  | [] => .ok ⟨id, name, email, age, active⟩
  | _ => .error "trailing elements"

/-- `serde_json`'s `deserialize_struct` accepts a map or a sequence;
anything else is an invalid-type error. -/
def userFromJson : Json → Except String User
  | .jobj kvs => visitMap kvs none none none none none
  | .jarr xs => visitSeq xs
  | _ => .error "invalid type, expected struct User"

/-- `User::from_json` (src/lib.rs lines 219-222, src/user.rs lines 91-94):
`serde_json::from_str`, which parses one value, requires only trailing
whitespace after it, and deserializes; any error is wrapped into a
`PyValueError` carrying the diagnostic message (the `Except.error` case
here). -/
def User.from_json (s : String) : Except String User :=
  match jsonParse s.data with
  | none => .error "expected value"
  | some (j, rest) =>
    match skipWs rest with
    | [] => userFromJson j
    | _ => .error "trailing characters"

/-! ## `User::new`, `User::model_copy` (src/lib.rs lines 163-166, 270-279) -/

def User.new (id : Int) (name email : String) (age : Int) (active : Bool) : User :=
  { id := id, name := name, email := email, age := age, active := active }

/-- `model_copy(&self, name, email, age, active)`: a fresh `User` keeping
`self.id` and substituting the four supplied values. -/
def User.model_copy (u : User) (name email : String) (age : Int) (active : Bool) : User :=
  { id := u.id, name := name, email := email, age := age, active := active }

/-- The full call as seen from the caller: `model_copy` takes `&self`
(a shared borrow), so the embedded call returns the receiver's state
after the call alongside the result; the receiver state is passed
through untouched, mirroring the absence of any `&mut self` access. -/
def User.model_copy_call (u : User) (name email : String) (age : Int) (active : Bool) :
    User × User :=
  (u, u.model_copy name email age active)

/-! ## Calculator (src/lib.rs lines 47-131, src/calculator.rs)

The Rust field is `f64`.  Every claim about it involves only small dyadic
rationals (`3.5`, `2.0`, `5.5`, `11.0`, `0.0`) on which IEEE-754 double
addition and multiplication are exact, so the state is modelled as `ℚ`.
Each mutating method returns the updated value, modelled as
new-state/return-value pairs. -/

structure Calculator where
  value : ℚ

def Calculator.new (initial_value : ℚ) : Calculator := ⟨initial_value⟩

def Calculator.add (c : Calculator) (x : ℚ) : Calculator × ℚ :=
  (⟨c.value + x⟩, c.value + x)

def Calculator.multiply (c : Calculator) (x : ℚ) : Calculator × ℚ :=
  (⟨c.value * x⟩, c.value * x)

def Calculator.reset (_c : Calculator) : Calculator × ℚ :=
  (⟨0⟩, 0)

/-! ## Dynamic entities for the indirect path

The indirect-path functions act on arbitrary Python objects through
`getattr(name)` (which raises `AttributeError` when the attribute is
absent) followed by `extract::<bool>()` / `extract::<i32>()` (which raise
a type error when the value has the wrong Python type, and an overflow
error when an `int` does not fit in `i32`).  An entity is embedded as its
attribute table; `getattr` is association-list lookup. -/

inductive PyVal where
  | vbool (b : Bool)
  | vint (n : Int)
  | vstr (s : String)
  | vnone
deriving DecidableEq

structure PyObj where
  attrs : List (String × PyVal)
deriving DecidableEq

def getattr (o : PyObj) (name : String) : Option PyVal :=
  (o.attrs.find? (fun p => p.1 = name)).map Prod.snd

def extractBool : PyVal → Option Bool
  | .vbool b => some b
  | _ => none

def extractI32 : PyVal → Option Int
  | .vint n => if -(2 ^ 31) ≤ n ∧ n < 2 ^ 31 then some n else none
  | _ => none

/-- The view of a valid `User` as a dynamic entity: pyo3's generated
getters expose all five fields by name. -/
def User.toPyObj (u : User) : PyObj :=
  ⟨[("id", .vint u.id), ("name", .vstr u.name), ("email", .vstr u.email),
    ("age", .vint u.age), ("active", .vbool u.active)]⟩

/-! ## The processing and benchmark functions

Elapsed-time outputs are wall-clock measurements and are not modelled;
the functions below return the counter components only.  The `i64`
accumulators are modelled as `Int`: wrap-around would require the sum of
`i32` ages to leave the `i64` range, which no sequence shorter than
`2^32` entities can achieve. -/

/-- `process_pydantic_users` (src/lib.rs lines 317-340,
src/process_pydantic_users.rs lines 25-48): fail-fast fold; every
`getattr`/`extract` failure propagates with `?` and aborts the call. -/
def process_pydantic_users (users : List PyObj) : Except String (Int × Int) :=
  go users 0 0
where
  go : List PyObj → Int → Int → Except String (Int × Int)
    | [], total_age, active_count => .ok (total_age, active_count)
    | u :: rest, total_age, active_count =>
      match getattr u "active" with
      | none => .error "AttributeError: active"
      | some v =>
        match extractBool v with
        | none => .error "TypeError: expected bool for active"
        | some active =>
          if active then
            match getattr u "age" with
            | none => .error "AttributeError: age"
            | some w =>
              match extractI32 w with
              | none => .error "TypeError: expected i32 for age"
              | some age => go rest (total_age + age) (active_count + 1)
          else go rest total_age active_count

/-- `process_pyo3_users` (src/lib.rs lines 359-381,
src/process_pyo3_users.rs lines 23-45): the entities are already `User`
values (`extract::<PyRef<User>>` on a `User` instance always succeeds);
direct field access, fail-fast shape with no failing step remaining. -/
def process_pyo3_users (users : List User) : Int × Int :=
  go users 0 0
where
  go : List User → Int → Int → Int × Int
    | [], total_age, active_count => (total_age, active_count)
    | u :: rest, total_age, active_count =>
      if u.active then go rest (total_age + u.age) (active_count + 1)
      else go rest total_age active_count

/-- `benchmark_pydantic_process` (src/lib.rs lines 394-428) — the variant
registered on the Python module.  `errors` is incremented only when
`getattr("active")` itself fails; a failed `extract::<bool>()`, a missing
`age`, or a failed `extract::<i32>()` silently skips the entity via the
`if let Ok(..)` chain. -/
def benchmark_pydantic_process (users : List PyObj) : Int × Int × Int :=
  go users 0 0 0
where
  go : List PyObj → Int → Int → Int → Int × Int × Int
    | [], total_age, active_count, errors => (total_age, active_count, errors)
    | u :: rest, total_age, active_count, errors =>
      match getattr u "active" with
      | none => go rest total_age active_count (errors + 1)
      | some v =>
        match extractBool v with
        | none => go rest total_age active_count errors
        | some active =>
          if active then
            match getattr u "age" with
            | none => go rest total_age active_count errors
            | some w =>
              match extractI32 w with
              | none => go rest total_age active_count errors
              | some age => go rest (total_age + age) (active_count + 1) errors
          else go rest total_age active_count errors

/-- `try_get_active_age` (src/benchmark_pydantic_process.rs lines 11-19):
`Ok(None)` when inactive, `Ok(Some(age))` on success, `Err` when any
lookup or extraction fails. -/
def try_get_active_age (o : PyObj) : Except String (Option Int) :=
  match getattr o "active" with
  | none => .error "AttributeError: active"
  | some v =>
    match extractBool v with
    | none => .error "TypeError: expected bool for active"
    | some active =>
      if !active then .ok none
      else
        match getattr o "age" with
        | none => .error "AttributeError: age"
        | some w =>
          match extractI32 w with
          | none => .error "TypeError: expected i32 for age"
          | some age => .ok (some age)

/-- `benchmark_pydantic_process` as written in the stand-alone duplicate
file (src/benchmark_pydantic_process.rs lines 42-53): every
`try_get_active_age` failure, type mismatches included, increments
`errors`.  This file is not declared as a module of the crate (lib.rs
defines its own copy and registers that one), so it is dead code kept
here only for comparison. -/
def benchmark_pydantic_process_file (users : List PyObj) : Int × Int × Int :=
  go users 0 0 0
where
  go : List PyObj → Int → Int → Int → Int × Int × Int
    | [], total_age, active_count, errors => (total_age, active_count, errors)
    | u :: rest, total_age, active_count, errors =>
      match try_get_active_age u with
      | .ok (some age) => go rest (total_age + age) (active_count + 1) errors
      | .ok none => go rest total_age active_count errors
      | .error _ => go rest total_age active_count (errors + 1)

/-- `benchmark_pyo3_process` (src/lib.rs lines 441-465,
src/benchmark_pyo3_process.rs): direct field access over `User` values,
no error counting. -/
def benchmark_pyo3_process (users : List User) : Int × Int :=
  go users 0 0
where
  go : List User → Int → Int → Int × Int
    | [], total_age, active_count => (total_age, active_count)
    | u :: rest, total_age, active_count =>
      if u.active then go rest (total_age + u.age) (active_count + 1)
      else go rest total_age active_count

/-- The specification-level totals: sum of ages (widened to 64 bits) and
count over exactly the active entities, in sequence order. -/
def spec_totals : List User → Int × Int
  | [] => (0, 0)
  | u :: rest =>
    let p := spec_totals rest
    if u.active then (u.age + p.1, p.2 + 1) else p

/-! ## Printer/parser inversion: decimal digits -/

theorem digitChar_toNat {d : Nat} (h : d < 10) : (digitChar d).toNat = 48 + d := by
  interval_cases d <;> rfl

theorem isDigit_digitChar {d : Nat} (h : d < 10) : isDigit (digitChar d) = true := by
  interval_cases d <;> rfl

theorem digitChar_ne_zero {d : Nat} (h : d < 10) (hd : 0 < d) : digitChar d ≠ '0' := by
  intro heq
  have := digitChar_toNat h
  rw [heq] at this
  simp at this
  omega

theorem parseDigitsAux_stop {acc : Nat} {cs : List Char} (h : headIsDigit cs = false) :
    parseDigitsAux acc cs = (acc, cs) := by
  cases cs with
  | nil => rfl
  | cons c cs =>
    simp only [headIsDigit] at h
    simp [parseDigitsAux, h]

theorem parseDigitsAux_natDigitsAux :
    ∀ (f n acc : Nat) (rest : List Char), n < 10 ^ f →
      parseDigitsAux acc (natDigitsAux f n ++ rest) =
        parseDigitsAux (acc * 10 ^ (natDigitsAux f n).length + n) rest := by
  intro f
  induction f with
  | zero =>
    intro n acc rest h
    interval_cases n
    simp [natDigitsAux]
  | succ f ih =>
    intro n acc rest h
    by_cases h10 : n < 10
    · rw [natDigitsAux, if_pos h10]
      simp only [List.cons_append, List.nil_append, List.length_cons, List.length_nil]
      rw [parseDigitsAux]
      simp [isDigit_digitChar h10, digitChar_toNat h10]
    · have hd : n / 10 < 10 ^ f := by
        rw [pow_succ, Nat.mul_comm] at h
        exact Nat.div_lt_of_lt_mul h
      rw [natDigitsAux, if_neg h10]
      rw [List.append_assoc, List.cons_append, List.nil_append]
      rw [ih (n / 10) acc _ hd]
      have hm : n % 10 < 10 := Nat.mod_lt _ (by norm_num)
      rw [parseDigitsAux]
      simp only [isDigit_digitChar hm, if_pos, digitChar_toNat hm]
      rw [List.length_append]
      have : (acc * 10 ^ (natDigitsAux f (n / 10)).length + n / 10) * 10 + (48 + n % 10 - 48) =
          acc * 10 ^ ((natDigitsAux f (n / 10)).length + 1) + n := by
        rw [pow_succ]
        have := Nat.div_add_mod n 10
        ring_nf
        omega
      rw [this]
      rfl

theorem nat_lt_pow10 (n : Nat) : n < 10 ^ (n + 1) := by
  calc n < 2 ^ n * 2 := by
        have := Nat.lt_two_pow n
        omega
    _ = 2 ^ (n + 1) := by rw [pow_succ]
    _ ≤ 10 ^ (n + 1) := Nat.pow_le_pow_left (by norm_num) _

theorem natDigits_parse {n : Nat} {rest : List Char} (h : headIsDigit rest = false) :
    parseDigitsAux 0 (natDigits n ++ rest) = (n, rest) := by
  rw [natDigits, parseDigitsAux_natDigitsAux _ _ _ _ (nat_lt_pow10 n)]
  simpa using parseDigitsAux_stop h

theorem natDigitsAux_head :
    ∀ f n, n < 10 ^ f → 0 < f →
      ∃ c cs, natDigitsAux f n = c :: cs ∧ isDigit c = true ∧ (0 < n → c ≠ '0') := by
  intro f
  induction f with
  | zero => intro n _ hf; omega
  | succ f ih =>
    intro n h _
    by_cases h10 : n < 10
    · refine ⟨digitChar n, [], ?_, isDigit_digitChar h10, fun hn => digitChar_ne_zero h10 hn⟩
      rw [natDigitsAux, if_pos h10]
    · have hf : 0 < f := by
        rcases Nat.eq_zero_or_pos f with rfl | hf
        · simp at h; omega
        · exact hf
      have hd : n / 10 < 10 ^ f := by
        rw [pow_succ, Nat.mul_comm] at h
        exact Nat.div_lt_of_lt_mul h
      obtain ⟨c, cs, hcons, hdig, hne⟩ := ih (n / 10) hd hf
      refine ⟨c, cs ++ [digitChar (n % 10)], ?_, hdig, fun _ => hne (by omega)⟩
      rw [natDigitsAux, if_neg h10, hcons]
      simp

theorem natDigits_head (n : Nat) :
    ∃ c cs, natDigits n = c :: cs ∧ isDigit c = true ∧ (0 < n → c ≠ '0') :=
  natDigitsAux_head (n + 1) n (nat_lt_pow10 n) (by omega)

theorem natDigitsAux_all_digits :
    ∀ f n c, c ∈ natDigitsAux f n → isDigit c = true := by
  intro f
  induction f with
  | zero => intro n c h; simp [natDigitsAux] at h
  | succ f ih =>
    intro n c h
    rw [natDigitsAux] at h
    split at h
    · next h10 =>
      simp at h
      subst h
      exact isDigit_digitChar h10
    · simp at h
      rcases h with h | h
      · exact ih _ _ h
      · subst h
        exact isDigit_digitChar (Nat.mod_lt _ (by norm_num))

/-! ## Printer/parser inversion: numbers -/

/-- The character after a printed number must not extend it. -/
def numStop : List Char → Bool
  | [] => true
  | c :: _ => !isDigit c && !(c = '.') && !(c = 'e') && !(c = 'E')

theorem numStop_headIsDigit {cs : List Char} (h : numStop cs = true) :
    headIsDigit cs = false := by
  cases cs with
  | nil => rfl
  | cons c cs =>
    simp [numStop] at h
    simp [headIsDigit, h.1]

theorem parseFracExp_stop {m : Nat} {cs : List Char} (h : numStop cs = true) :
    parseFracExp m cs = some ((false, m), cs) := by
  cases cs with
  | nil => rfl
  | cons c cs =>
    simp [numStop] at h
    obtain ⟨⟨⟨-, hdot⟩, he⟩, hE⟩ := h
    simp [parseFracExp, hdot, he, hE]

theorem parseNumAfterSign_natDigits {n : Nat} {rest : List Char} (h : numStop rest = true) :
    parseNumAfterSign (natDigits n ++ rest) = some ((false, n), rest) := by
  have hstop := numStop_headIsDigit h
  rcases Nat.eq_zero_or_pos n with rfl | hn
  · show parseNumAfterSign ('0' :: rest) = _
    simp [parseNumAfterSign, hstop, parseFracExp_stop h]
  · obtain ⟨c, cs, hcons, hdig, hne⟩ := natDigits_head n
    rw [hcons, List.cons_append, parseNumAfterSign]
    rw [if_neg (hne hn), if_pos hdig]
    simp only [← List.cons_append, ← hcons]
    rw [natDigits_parse hstop]
    exact parseFracExp_stop h

theorem isDigit_ne_minus {c : Char} (h : isDigit c = true) : c ≠ '-' := by
  intro heq
  subst heq
  exact absurd h (by decide)

theorem parseNumber_intChars {i : Int} {rest : List Char} (h : numStop rest = true) :
    parseNumber (intChars i ++ rest) = some (.jint i, rest) := by
  rcases lt_or_le i 0 with hi | hi
  · rw [intChars, if_pos hi, List.cons_append, parseNumber]
    rw [if_pos rfl, parseNumAfterSign_natDigits h]
    have hv : -(i.natAbs : Int) = i := by omega
    show some (Json.jint (-(i.natAbs : Int)), rest) = some (Json.jint i, rest)
    rw [hv]
  · rw [intChars, if_neg (not_lt.2 hi)]
    obtain ⟨c, cs, hcons, hdig, -⟩ := natDigits_head i.toNat
    rw [hcons, List.cons_append, parseNumber, if_neg (isDigit_ne_minus hdig)]
    rw [← List.cons_append, ← hcons, parseNumAfterSign_natDigits h]
    have hv : (i.toNat : Int) = i := Int.toNat_of_nonneg hi
    show some (Json.jint (i.toNat : Int), rest) = some (Json.jint i, rest)
    rw [hv]

/-! ## Printer/parser inversion: string literals -/

theorem hexDigitVal_hexDigitChar {m : Nat} (h : m < 16) :
    hexDigitVal (hexDigitChar m) = some m := by
  interval_cases m <;> rfl

theorem parseHex4_escape {t : Nat} (h : t < 0x20) (rest : List Char) :
    parseHex4 ('0' :: '0' :: hexDigitChar (t / 16) :: hexDigitChar (t % 16) :: rest) =
      some (t, rest) := by
  have h1 : t / 16 < 16 := by omega
  have h2 : t % 16 < 16 := by omega
  rw [parseHex4]
  rw [hexDigitVal_hexDigitChar h1, hexDigitVal_hexDigitChar h2]
  have h0 : hexDigitVal '0' = some 0 := rfl
  rw [h0]
  have ht : ((0 * 16 + 0) * 16 + t / 16) * 16 + t % 16 = t := by omega
  show some (((0 * 16 + 0) * 16 + t / 16) * 16 + t % 16, rest) = some (t, rest)
  rw [ht]

theorem parseStringBody_escList :
    ∀ (s : List Char) (g : Nat) (rest : List Char), (escList s).length < g →
      parseStringBody g (escList s ++ '"' :: rest) = some (s, rest) := by
  intro s
  induction s with
  | nil =>
    intro g rest hg
    obtain ⟨g, rfl⟩ : ∃ g', g = g' + 1 := ⟨g - 1, by omega⟩
    rfl
  | cons c s ih =>
    intro g rest hg
    rw [escList] at hg ⊢
    rw [escapeChar] at hg ⊢
    split_ifs at hg ⊢ with h1 h2 h3 h4 h5 h6 h7 h8
    · subst h1
      obtain ⟨g, rfl⟩ : ∃ g', g = g' + 1 := ⟨g - 1, by omega⟩
      have hl : (escList s).length < g := by simp at hg; omega
      simp [parseStringBody, simpleEscape, ih g rest hl]
    · subst h2
      obtain ⟨g, rfl⟩ : ∃ g', g = g' + 1 := ⟨g - 1, by omega⟩
      have hl : (escList s).length < g := by simp at hg; omega
      simp [parseStringBody, simpleEscape, ih g rest hl]
    · subst h3
      obtain ⟨g, rfl⟩ : ∃ g', g = g' + 1 := ⟨g - 1, by omega⟩
      have hl : (escList s).length < g := by simp at hg; omega
      simp [parseStringBody, simpleEscape, ih g rest hl]
    · subst h4
      obtain ⟨g, rfl⟩ : ∃ g', g = g' + 1 := ⟨g - 1, by omega⟩
      have hl : (escList s).length < g := by simp at hg; omega
      simp [parseStringBody, simpleEscape, ih g rest hl]
    · subst h5
      obtain ⟨g, rfl⟩ : ∃ g', g = g' + 1 := ⟨g - 1, by omega⟩
      have hl : (escList s).length < g := by simp at hg; omega
      simp [parseStringBody, simpleEscape, ih g rest hl]
    · subst h6
      obtain ⟨g, rfl⟩ : ∃ g', g = g' + 1 := ⟨g - 1, by omega⟩
      have hl : (escList s).length < g := by simp at hg; omega
      simp [parseStringBody, simpleEscape, ih g rest hl]
    · subst h7
      obtain ⟨g, rfl⟩ : ∃ g', g = g' + 1 := ⟨g - 1, by omega⟩
      have hl : (escList s).length < g := by simp at hg; omega
      simp [parseStringBody, simpleEscape, ih g rest hl]
    · -- other control characters: the six-character `\u00XX` escape
      obtain ⟨g, rfl⟩ : ∃ g', g = g' + 1 := ⟨g - 1, by omega⟩
      have hl : (escList s).length < g := by simp at hg; omega
      have hlow : c.toNat < 0xd800 ∨ 0xdfff < c.toNat := by omega
      simp +decide [parseStringBody, parseHex4_escape h8, hlow, ih g rest hl]
    · -- raw character
      obtain ⟨g, rfl⟩ : ∃ g', g = g' + 1 := ⟨g - 1, by omega⟩
      have hl : (escList s).length < g := by simp at hg; omega
      simp [parseStringBody, h1, h2, h8, ih g rest hl]

/-! ## Printer/parser inversion: values and object members -/

theorem skipWs_cons_of_ws {c : Char} {t : List Char} (h : isWsChar c = true) :
    skipWs (c :: t) = skipWs t := by
  simp [skipWs, h]

theorem skipWs_cons_of_not {c : Char} {t : List Char} (h : isWsChar c = false) :
    skipWs (c :: t) = c :: t := by
  simp [skipWs, h]

theorem char_ne_of_toNat_ne {c d : Char} (h : c.toNat ≠ d.toNat) : c ≠ d :=
  fun heq => h (congrArg Char.toNat heq)

theorem intChars_head (i : Int) :
    ∃ c cs, intChars i = c :: cs ∧ (c = '-' ∨ isDigit c = true) := by
  rw [intChars]
  split_ifs with hi
  · exact ⟨'-', natDigits i.natAbs, rfl, .inl rfl⟩
  · obtain ⟨c, cs, hcons, hdig, -⟩ := natDigits_head i.toNat
    exact ⟨c, cs, hcons, .inr hdig⟩

theorem numHead_facts {c : Char} (h : c = '-' ∨ isDigit c = true) :
    isWsChar c = false ∧ ¬c = '{' ∧ ¬c = '[' ∧ ¬c = '"' ∧ ¬c = 't' ∧ ¬c = 'f' ∧ ¬c = 'n' := by
  have hn : 45 ≤ c.toNat ∧ c.toNat ≤ 57 := by
    rcases h with rfl | h
    · exact ⟨by decide, by decide⟩
    · simp [isDigit] at h
      omega
  refine ⟨?_, ?_, ?_, ?_, ?_, ?_, ?_⟩
  · simp only [isWsChar, Bool.or_eq_false_iff, decide_eq_false_iff_not]
    exact ⟨⟨⟨char_ne_of_toNat_ne (show c.toNat ≠ 32 by omega),
        char_ne_of_toNat_ne (show c.toNat ≠ 10 by omega)⟩,
        char_ne_of_toNat_ne (show c.toNat ≠ 9 by omega)⟩,
        char_ne_of_toNat_ne (show c.toNat ≠ 13 by omega)⟩
  · exact char_ne_of_toNat_ne (show c.toNat ≠ 123 by omega)
  · exact char_ne_of_toNat_ne (show c.toNat ≠ 91 by omega)
  · exact char_ne_of_toNat_ne (show c.toNat ≠ 34 by omega)
  · exact char_ne_of_toNat_ne (show c.toNat ≠ 116 by omega)
  · exact char_ne_of_toNat_ne (show c.toNat ≠ 102 by omega)
  · exact char_ne_of_toNat_ne (show c.toNat ≠ 110 by omega)

theorem skipWs_intChars (i : Int) (r : List Char) :
    skipWs (intChars i ++ r) = intChars i ++ r := by
  obtain ⟨c, cs, hcons, hc⟩ := intChars_head i
  rw [hcons, List.cons_append, skipWs_cons_of_not (numHead_facts hc).1]

/-- A character of a plain key: no escape needed, parsed raw. -/
def plainChar (c : Char) : Bool := !(c = '"') && !(c = '\\') && !(c.toNat < 0x20)

theorem parseStringBody_plain :
    ∀ (key : List Char) (g : Nat) (r : List Char),
      (∀ c ∈ key, plainChar c = true) → key.length < g →
      parseStringBody g (key ++ '"' :: r) = some (key, r) := by
  intro key
  induction key with
  | nil =>
    intro g r _ hg
    obtain ⟨g, rfl⟩ : ∃ g', g = g' + 1 := ⟨g - 1, by omega⟩
    rfl
  | cons c key ih =>
    intro g r hplain hg
    obtain ⟨g, rfl⟩ : ∃ g', g = g' + 1 := ⟨g - 1, by omega⟩
    have hc := hplain c (by simp)
    simp only [plainChar, Bool.and_eq_true, Bool.not_eq_true', decide_eq_false_iff_not,
      decide_eq_true_eq] at hc
    obtain ⟨⟨h1, h2⟩, h3⟩ := hc
    rw [List.cons_append]
    simp [parseStringBody, h1, h2, h3,
      ih g r (fun d hd => hplain d (by simp [hd])) (by simp at hg; omega)]

theorem parseValue_jstr (f : Nat) (cs s r : List Char)
    (hskip : skipWs cs = '"' :: (escList s ++ '"' :: r)) :
    parseValue (f + 1) cs = some (.jstr ⟨s⟩, r) := by
  rw [parseValue, hskip]
  have hp := parseStringBody_escList s ((escList s ++ '"' :: r).length + 1) r
    (by simp only [List.length_append, List.length_cons]; omega)
  show (parseStringBody ((escList s ++ '"' :: r).length + 1) (escList s ++ '"' :: r)).map
      (fun p => (Json.jstr ⟨p.1⟩, p.2)) = some (.jstr ⟨s⟩, r)
  rw [hp]
  rfl

theorem parseValue_jint (f : Nat) (cs : List Char) (i : Int) (r : List Char)
    (hskip : skipWs cs = intChars i ++ r) (hstop : numStop r = true) :
    parseValue (f + 1) cs = some (.jint i, r) := by
  obtain ⟨c, cs', hcons, hc⟩ := intChars_head i
  obtain ⟨-, h1, h2, h3, h4, h5, h6⟩ := numHead_facts hc
  rw [parseValue, hskip, hcons, List.cons_append]
  simp only [h1, h2, h3, h4, h5, h6, if_false]
  rw [← List.cons_append, ← hcons, parseNumber_intChars hstop]

theorem parseValue_jbool (f : Nat) (cs : List Char) (b : Bool) (r : List Char)
    (hskip : skipWs cs = boolChars b ++ r) :
    parseValue (f + 1) cs = some (.jbool b, r) := by
  cases b <;> (rw [parseValue, hskip]; rfl)

theorem parseValue_obj (f : Nat) (cs cs1 t : List Char)
    (hskip : skipWs cs = '{' :: cs1) (h1 : skipWs cs1 = '"' :: t) :
    parseValue (f + 1) cs = (parseMembers f cs1).map (fun p => (.jobj p.1, p.2)) := by
  rw [parseValue, hskip]
  simp +decide [h1]

theorem parseMembers_step (f : Nat) (cs key vrest after : List Char) (v : Json)
    (hskip : skipWs cs = '"' :: (key ++ '"' :: ':' :: vrest))
    (hkey : ∀ c ∈ key, plainChar c = true)
    (hval : parseValue f vrest = some (v, after)) :
    parseMembers (f + 1) cs =
      match skipWs after with
      | ',' :: cs5 => (parseMembers f cs5).map (fun p => ((⟨key⟩, v) :: p.1, p.2))
      | '}' :: cs5 => some ([(⟨key⟩, v)], cs5)
      | _ => none := by
  rw [parseMembers, hskip]
  have hp : parseStringBody (key.length + (vrest.length + 1 + 1) + 1) (key ++ '"' :: ':' :: vrest) =
      some (key, ':' :: vrest) :=
    parseStringBody_plain key _ (':' :: vrest) hkey (by omega)
  have hsk : skipWs (':' :: vrest) = ':' :: vrest := skipWs_cons_of_not (by decide)
  simp +decide [hp, hsk, hval]

theorem skipWs_boolChars (b : Bool) (r : List Char) :
    skipWs (boolChars b ++ r) = boolChars b ++ r := by
  cases b <;> rfl

theorem parseValue_obj2 (f : Nat) (t : List Char) :
    parseValue (f + 1) ('{' :: '"' :: t) =
      (parseMembers f ('"' :: t)).map (fun p => (.jobj p.1, p.2)) :=
  parseValue_obj f ('{' :: '"' :: t) ('"' :: t) t (skipWs_cons_of_not rfl) (skipWs_cons_of_not rfl)

theorem pm_id (f : Nat) (vrest : List Char) (v : Json) (next : List Char)
    (hval : parseValue f vrest = some (v, ',' :: next)) :
    parseMembers (f + 1) ('"' :: 'i' :: 'd' :: '"' :: ':' :: vrest) =
      (parseMembers f next).map (fun p => (("id", v) :: p.1, p.2)) :=
  parseMembers_step f _ ['i', 'd'] vrest (',' :: next) v (skipWs_cons_of_not rfl) (by decide) hval

theorem pm_name (f : Nat) (vrest : List Char) (v : Json) (next : List Char)
    (hval : parseValue f vrest = some (v, ',' :: next)) :
    parseMembers (f + 1) ('"' :: 'n' :: 'a' :: 'm' :: 'e' :: '"' :: ':' :: vrest) =
      (parseMembers f next).map (fun p => (("name", v) :: p.1, p.2)) :=
  parseMembers_step f _ ['n', 'a', 'm', 'e'] vrest (',' :: next) v (skipWs_cons_of_not rfl)
    (by decide) hval

theorem pm_email (f : Nat) (vrest : List Char) (v : Json) (next : List Char)
    (hval : parseValue f vrest = some (v, ',' :: next)) :
    parseMembers (f + 1) ('"' :: 'e' :: 'm' :: 'a' :: 'i' :: 'l' :: '"' :: ':' :: vrest) =
      (parseMembers f next).map (fun p => (("email", v) :: p.1, p.2)) :=
  parseMembers_step f _ ['e', 'm', 'a', 'i', 'l'] vrest (',' :: next) v (skipWs_cons_of_not rfl)
    (by decide) hval

theorem pm_age (f : Nat) (vrest : List Char) (v : Json) (next : List Char)
    (hval : parseValue f vrest = some (v, ',' :: next)) :
    parseMembers (f + 1) ('"' :: 'a' :: 'g' :: 'e' :: '"' :: ':' :: vrest) =
      (parseMembers f next).map (fun p => (("age", v) :: p.1, p.2)) :=
  parseMembers_step f _ ['a', 'g', 'e'] vrest (',' :: next) v (skipWs_cons_of_not rfl)
    (by decide) hval

theorem pm_active_last (f : Nat) (vrest : List Char) (v : Json) (r : List Char)
    (hval : parseValue f vrest = some (v, '}' :: r)) :
    parseMembers (f + 1) ('"' :: 'a' :: 'c' :: 't' :: 'i' :: 'v' :: 'e' :: '"' :: ':' :: vrest) =
      some ([("active", v)], r) :=
  parseMembers_step f _ ['a', 'c', 't', 'i', 'v', 'e'] vrest ('}' :: r) v (skipWs_cons_of_not rfl)
    (by decide) hval

/-- Parsing the compact encoding of a `User` yields its JSON value, for
any remaining input and any fuel of the form `f + 7`. -/
theorem parseValue_compact (f : Nat) (u : User) (r : List Char) :
    parseValue (f + 7) (compactChars u ++ r) = some (userJsonValue u, r) := by
  have hin : compactChars u ++ r =
      '{' :: '"' :: 'i' :: 'd' :: '"' :: ':' ::
      (intChars u.id ++
       ',' :: '"' :: 'n' :: 'a' :: 'm' :: 'e' :: '"' :: ':' :: '"' ::
       (escList u.name.data ++
        '"' :: ',' :: '"' :: 'e' :: 'm' :: 'a' :: 'i' :: 'l' :: '"' :: ':' :: '"' ::
        (escList u.email.data ++
         '"' :: ',' :: '"' :: 'a' :: 'g' :: 'e' :: '"' :: ':' ::
         (intChars u.age ++
          ',' :: '"' :: 'a' :: 'c' :: 't' :: 'i' :: 'v' :: 'e' :: '"' :: ':' ::
          (boolChars u.active ++ '}' :: r))))) := by
    rw [compactChars]
    rw [show ("\x7b\"id\":".data) = ['{', '"', 'i', 'd', '"', ':'] from rfl,
      show (",\"name\":\"".data) = [',', '"', 'n', 'a', 'm', 'e', '"', ':', '"'] from rfl,
      show ("\",\"email\":\"".data) = ['"', ',', '"', 'e', 'm', 'a', 'i', 'l', '"', ':', '"'] from rfl,
      show ("\",\"age\":".data) = ['"', ',', '"', 'a', 'g', 'e', '"', ':'] from rfl,
      show (",\"active\":".data) = [',', '"', 'a', 'c', 't', 'i', 'v', 'e', '"', ':'] from rfl,
      show ("\x7d".data) = ['}'] from rfl]
    simp [List.append_assoc]
  rw [hin]
  rw [show f + 7 = f + 6 + 1 from rfl]
  rw [parseValue_obj2 (f + 6)]
  rw [show f + 6 = f + 5 + 1 from rfl]
  rw [pm_id (f + 5) _ _ _ (parseValue_jint (f + 4) _ u.id _ (skipWs_intChars _ _) rfl)]
  rw [show f + 5 = f + 4 + 1 from rfl]
  rw [pm_name (f + 4) _ _ _ (parseValue_jstr (f + 3) _ u.name.data _ (skipWs_cons_of_not rfl))]
  rw [show f + 4 = f + 3 + 1 from rfl]
  rw [pm_email (f + 3) _ _ _ (parseValue_jstr (f + 2) _ u.email.data _ (skipWs_cons_of_not rfl))]
  rw [show f + 3 = f + 2 + 1 from rfl]
  rw [pm_age (f + 2) _ _ _ (parseValue_jint (f + 1) _ u.age _ (skipWs_intChars _ _) rfl)]
  rw [show f + 2 = f + 1 + 1 from rfl]
  rw [pm_active_last (f + 1) _ _ _ (parseValue_jbool f _ u.active _ (skipWs_boolChars _ _))]
  rfl

theorem skipWs_sp_intChars (i : Int) (r : List Char) :
    skipWs (' ' :: (intChars i ++ r)) = intChars i ++ r := by
  rw [@skipWs_cons_of_ws ' ' (intChars i ++ r) rfl, skipWs_intChars]

theorem skipWs_sp_quote (t : List Char) : skipWs (' ' :: '"' :: t) = '"' :: t := rfl

theorem skipWs_sp_boolChars (b : Bool) (r : List Char) :
    skipWs (' ' :: (boolChars b ++ r)) = boolChars b ++ r := by
  cases b <;> rfl

theorem parseValue_obj2p (f : Nat) (t : List Char) :
    parseValue (f + 1) ('{' :: '\n' :: ' ' :: ' ' :: '"' :: t) =
      (parseMembers f ('\n' :: ' ' :: ' ' :: '"' :: t)).map (fun p => (.jobj p.1, p.2)) :=
  parseValue_obj f _ ('\n' :: ' ' :: ' ' :: '"' :: t) t (skipWs_cons_of_not rfl) rfl

theorem pm_id_p (f : Nat) (vrest : List Char) (v : Json) (next : List Char)
    (hval : parseValue f vrest = some (v, ',' :: next)) :
    parseMembers (f + 1) ('\n' :: ' ' :: ' ' :: '"' :: 'i' :: 'd' :: '"' :: ':' :: vrest) =
      (parseMembers f next).map (fun p => (("id", v) :: p.1, p.2)) :=
  parseMembers_step f _ ['i', 'd'] vrest (',' :: next) v rfl (by decide) hval

theorem pm_name_p (f : Nat) (vrest : List Char) (v : Json) (next : List Char)
    (hval : parseValue f vrest = some (v, ',' :: next)) :
    parseMembers (f + 1) ('\n' :: ' ' :: ' ' :: '"' :: 'n' :: 'a' :: 'm' :: 'e' :: '"' :: ':' :: vrest) =
      (parseMembers f next).map (fun p => (("name", v) :: p.1, p.2)) :=
  parseMembers_step f _ ['n', 'a', 'm', 'e'] vrest (',' :: next) v rfl (by decide) hval

theorem pm_email_p (f : Nat) (vrest : List Char) (v : Json) (next : List Char)
    (hval : parseValue f vrest = some (v, ',' :: next)) :
    parseMembers (f + 1) ('\n' :: ' ' :: ' ' :: '"' :: 'e' :: 'm' :: 'a' :: 'i' :: 'l' :: '"' :: ':' :: vrest) =
      (parseMembers f next).map (fun p => (("email", v) :: p.1, p.2)) :=
  parseMembers_step f _ ['e', 'm', 'a', 'i', 'l'] vrest (',' :: next) v rfl (by decide) hval

theorem pm_age_p (f : Nat) (vrest : List Char) (v : Json) (next : List Char)
    (hval : parseValue f vrest = some (v, ',' :: next)) :
    parseMembers (f + 1) ('\n' :: ' ' :: ' ' :: '"' :: 'a' :: 'g' :: 'e' :: '"' :: ':' :: vrest) =
      (parseMembers f next).map (fun p => (("age", v) :: p.1, p.2)) :=
  parseMembers_step f _ ['a', 'g', 'e'] vrest (',' :: next) v rfl (by decide) hval

theorem pm_active_last_p (f : Nat) (vrest : List Char) (v : Json) (r : List Char)
    (hval : parseValue f vrest = some (v, '\n' :: '}' :: r)) :
    parseMembers (f + 1) ('\n' :: ' ' :: ' ' :: '"' :: 'a' :: 'c' :: 't' :: 'i' :: 'v' :: 'e' :: '"' :: ':' :: vrest) =
      some ([("active", v)], r) :=
  parseMembers_step f _ ['a', 'c', 't', 'i', 'v', 'e'] vrest ('\n' :: '}' :: r) v rfl
    (by decide) hval

/-- Parsing the pretty encoding of a `User` yields the same JSON value. -/
theorem parseValue_pretty (f : Nat) (u : User) (r : List Char) :
    parseValue (f + 7) (prettyChars u ++ r) = some (userJsonValue u, r) := by
  have hin : prettyChars u ++ r =
      '{' :: '\n' :: ' ' :: ' ' :: '"' :: 'i' :: 'd' :: '"' :: ':' :: ' ' ::
      (intChars u.id ++
       ',' :: '\n' :: ' ' :: ' ' :: '"' :: 'n' :: 'a' :: 'm' :: 'e' :: '"' :: ':' :: ' ' :: '"' ::
       (escList u.name.data ++
        '"' :: ',' :: '\n' :: ' ' :: ' ' :: '"' :: 'e' :: 'm' :: 'a' :: 'i' :: 'l' :: '"' :: ':' :: ' ' :: '"' ::
        (escList u.email.data ++
         '"' :: ',' :: '\n' :: ' ' :: ' ' :: '"' :: 'a' :: 'g' :: 'e' :: '"' :: ':' :: ' ' ::
         (intChars u.age ++
          ',' :: '\n' :: ' ' :: ' ' :: '"' :: 'a' :: 'c' :: 't' :: 'i' :: 'v' :: 'e' :: '"' :: ':' :: ' ' ::
          (boolChars u.active ++ '\n' :: '}' :: r))))) := by
    rw [prettyChars]
    rw [show ("\x7b\n  \"id\": ".data) = ['{', '\n', ' ', ' ', '"', 'i', 'd', '"', ':', ' '] from rfl,
      show (",\n  \"name\": \"".data) =
        [',', '\n', ' ', ' ', '"', 'n', 'a', 'm', 'e', '"', ':', ' ', '"'] from rfl,
      show ("\",\n  \"email\": \"".data) =
        ['"', ',', '\n', ' ', ' ', '"', 'e', 'm', 'a', 'i', 'l', '"', ':', ' ', '"'] from rfl,
      show ("\",\n  \"age\": ".data) =
        ['"', ',', '\n', ' ', ' ', '"', 'a', 'g', 'e', '"', ':', ' '] from rfl,
      show (",\n  \"active\": ".data) =
        [',', '\n', ' ', ' ', '"', 'a', 'c', 't', 'i', 'v', 'e', '"', ':', ' '] from rfl,
      show ("\n\x7d".data) = ['\n', '}'] from rfl]
    simp [List.append_assoc]
  rw [hin]
  rw [show f + 7 = f + 6 + 1 from rfl]
  rw [parseValue_obj2p (f + 6)]
  rw [show f + 6 = f + 5 + 1 from rfl]
  rw [pm_id_p (f + 5) _ _ _ (parseValue_jint (f + 4) _ u.id _ (skipWs_sp_intChars _ _) rfl)]
  rw [show f + 5 = f + 4 + 1 from rfl]
  rw [pm_name_p (f + 4) _ _ _ (parseValue_jstr (f + 3) _ u.name.data _ (skipWs_sp_quote _))]
  rw [show f + 4 = f + 3 + 1 from rfl]
  rw [pm_email_p (f + 3) _ _ _ (parseValue_jstr (f + 2) _ u.email.data _ (skipWs_sp_quote _))]
  rw [show f + 3 = f + 2 + 1 from rfl]
  rw [pm_age_p (f + 2) _ _ _ (parseValue_jint (f + 1) _ u.age _ (skipWs_sp_intChars _ _) rfl)]
  rw [show f + 2 = f + 1 + 1 from rfl]
  rw [pm_active_last_p (f + 1) _ _ _ (parseValue_jbool f _ u.active _ (skipWs_sp_boolChars _ _))]
  rfl

/-! ## Decoding the canonical JSON value of a User -/

theorem userFromJson_userJsonValue (u : User) (hid : inI32 u.id) (hage : inI32 u.age) :
    userFromJson (userJsonValue u) = .ok u := by
  have hid' : -2147483648 ≤ u.id ∧ u.id < 2147483648 := by
    obtain ⟨h1, h2⟩ := hid
    norm_num at h1 h2
    exact ⟨h1, h2⟩
  have hage' : -2147483648 ≤ u.age ∧ u.age < 2147483648 := by
    obtain ⟨h1, h2⟩ := hage
    norm_num at h1 h2
    exact ⟨h1, h2⟩
  simp +decide [userFromJson, userJsonValue, visitMap, asI32, asStr, asBool,
    hid'.1, hid'.2, hage'.1, hage'.2]

theorem compactChars_length (u : User) : 6 ≤ (compactChars u).length := by
  rw [compactChars]
  simp [List.length_append]

theorem prettyChars_length (u : User) : 6 ≤ (prettyChars u).length := by
  rw [prettyChars]
  simp [List.length_append]

theorem from_json_json (u : User) (hid : inI32 u.id) (hage : inI32 u.age) :
    User.from_json (User.json u) = .ok u := by
  rw [User.from_json]
  have hdata : (User.json u).data = compactChars u := rfl
  rw [hdata, jsonParse]
  obtain ⟨f, hf⟩ : ∃ f, (compactChars u).length + 1 = f + 7 :=
    ⟨(compactChars u).length - 6, by have := compactChars_length u; omega⟩
  rw [hf]
  have hp := parseValue_compact f u []
  rw [List.append_nil] at hp
  rw [hp]
  exact userFromJson_userJsonValue u hid hage

theorem from_json_json_pretty (u : User) (hid : inI32 u.id) (hage : inI32 u.age) :
    User.from_json (User.json_pretty u) = .ok u := by
  rw [User.from_json]
  have hdata : (User.json_pretty u).data = prettyChars u := rfl
  rw [hdata, jsonParse]
  obtain ⟨f, hf⟩ : ∃ f, (prettyChars u).length + 1 = f + 7 :=
    ⟨(prettyChars u).length - 6, by have := prettyChars_length u; omega⟩
  rw [hf]
  have hp := parseValue_pretty f u []
  rw [List.append_nil] at hp
  rw [hp]
  exact userFromJson_userJsonValue u hid hage

/-! ## Error paths of the deserializer -/

def fieldKeys : List String := ["id", "name", "email", "age", "active"]

/-- Pure type compatibility of a JSON value with a field of `User`
(the i32 range is a separate, value-level check). -/
def fieldTypeOk : String → Json → Bool
  | "id", .jint _ => true
  | "id", _ => false
  | "name", .jstr _ => true
  | "name", _ => false
  | "email", .jstr _ => true
  | "email", _ => false
  | "age", .jint _ => true
  | "age", _ => false
  | "active", .jbool _ => true
  | "active", _ => false
  | _, _ => true

theorem asI32_err_of_mismatch {k : String} {v : Json} (hk : k = "id" ∨ k = "age")
    (h : fieldTypeOk k v = false) : ∃ e, asI32 v = .error e := by
  rcases hk with rfl | rfl <;> cases v <;> first | (exact ⟨_, rfl⟩) | (simp [fieldTypeOk] at h)

theorem asStr_err_of_mismatch {k : String} {v : Json} (hk : k = "name" ∨ k = "email")
    (h : fieldTypeOk k v = false) : ∃ e, asStr v = .error e := by
  rcases hk with rfl | rfl <;> cases v <;> first | (exact ⟨_, rfl⟩) | (simp [fieldTypeOk] at h)

theorem asBool_err_of_mismatch {v : Json} (h : fieldTypeOk "active" v = false) :
    ∃ e, asBool v = .error e := by
  cases v <;> first | (exact ⟨_, rfl⟩) | (simp [fieldTypeOk] at h)

theorem visitMap_err_id :
    ∀ (kvs : List (String × Json)) (fname femail : Option String)
      (fage : Option Int) (factive : Option Bool),
      "id" ∉ kvs.map Prod.fst →
      ∃ e, visitMap kvs none fname femail fage factive = .error e := by
  intro kvs
  induction kvs with
  | nil => intro fname femail fage factive _; exact ⟨_, rfl⟩
  | cons kv rest ih =>
    obtain ⟨k, v⟩ := kv
    intro fname femail fage factive habs
    simp only [List.map_cons, List.mem_cons, not_or] at habs
    obtain ⟨hne, habs⟩ := habs
    simp only [visitMap]
    split_ifs with h1 h2 h3 h4 h5
    · exact absurd h1.symm hne
    · cases fname with
      | some a => exact ⟨_, rfl⟩
      | none =>
        cases hv : asStr v with
        | error e => exact ⟨_, rfl⟩
        | ok w => exact ih (some w) femail fage factive habs
    · cases femail with
      | some a => exact ⟨_, rfl⟩
      | none =>
        cases hv : asStr v with
        | error e => exact ⟨_, rfl⟩
        | ok w => exact ih fname (some w) fage factive habs
    · cases fage with
      | some a => exact ⟨_, rfl⟩
      | none =>
        cases hv : asI32 v with
        | error e => exact ⟨_, rfl⟩
        | ok w => exact ih fname femail (some w) factive habs
    · cases factive with
      | some a => exact ⟨_, rfl⟩
      | none =>
        cases hv : asBool v with
        | error e => exact ⟨_, rfl⟩
        | ok w => exact ih fname femail fage (some w) habs
    · exact ih fname femail fage factive habs

theorem visitMap_err_name :
    ∀ (kvs : List (String × Json)) (fid : Option Int) (femail : Option String)
      (fage : Option Int) (factive : Option Bool),
      "name" ∉ kvs.map Prod.fst →
      ∃ e, visitMap kvs fid none femail fage factive = .error e := by
  intro kvs
  induction kvs with
  | nil =>
    intro fid femail fage factive _
    cases fid <;> exact ⟨_, rfl⟩
  | cons kv rest ih =>
    obtain ⟨k, v⟩ := kv
    intro fid femail fage factive habs
    simp only [List.map_cons, List.mem_cons, not_or] at habs
    obtain ⟨hne, habs⟩ := habs
    simp only [visitMap]
    split_ifs with h1 h2 h3 h4 h5
    · cases fid with
      | some a => exact ⟨_, rfl⟩
      | none =>
        cases hv : asI32 v with
        | error e => exact ⟨_, rfl⟩
        | ok w => exact ih (some w) femail fage factive habs
    · exact absurd h2.symm hne
    · cases femail with
      | some a => exact ⟨_, rfl⟩
      | none =>
        cases hv : asStr v with
        | error e => exact ⟨_, rfl⟩
        | ok w => exact ih fid (some w) fage factive habs
    · cases fage with
      | some a => exact ⟨_, rfl⟩
      | none =>
        cases hv : asI32 v with
        | error e => exact ⟨_, rfl⟩
        | ok w => exact ih fid femail (some w) factive habs
    · cases factive with
      | some a => exact ⟨_, rfl⟩
      | none =>
        cases hv : asBool v with
        | error e => exact ⟨_, rfl⟩
        | ok w => exact ih fid femail fage (some w) habs
    · exact ih fid femail fage factive habs

theorem visitMap_err_email :
    ∀ (kvs : List (String × Json)) (fid : Option Int) (fname : Option String)
      (fage : Option Int) (factive : Option Bool),
      "email" ∉ kvs.map Prod.fst →
      ∃ e, visitMap kvs fid fname none fage factive = .error e := by
  intro kvs
  induction kvs with
  | nil =>
    intro fid fname fage factive _
    cases fid <;> cases fname <;> exact ⟨_, rfl⟩
  | cons kv rest ih =>
    obtain ⟨k, v⟩ := kv
    intro fid fname fage factive habs
    simp only [List.map_cons, List.mem_cons, not_or] at habs
    obtain ⟨hne, habs⟩ := habs
    simp only [visitMap]
    split_ifs with h1 h2 h3 h4 h5
    · cases fid with
      | some a => exact ⟨_, rfl⟩
      | none =>
        cases hv : asI32 v with
        | error e => exact ⟨_, rfl⟩
        | ok w => exact ih (some w) fname fage factive habs
    · cases fname with
      | some a => exact ⟨_, rfl⟩
      | none =>
        cases hv : asStr v with
        | error e => exact ⟨_, rfl⟩
        | ok w => exact ih fid (some w) fage factive habs
    · exact absurd h3.symm hne
    · cases fage with
      | some a => exact ⟨_, rfl⟩
      | none =>
        cases hv : asI32 v with
        | error e => exact ⟨_, rfl⟩
        | ok w => exact ih fid fname (some w) factive habs
    · cases factive with
      | some a => exact ⟨_, rfl⟩
      | none =>
        cases hv : asBool v with
        | error e => exact ⟨_, rfl⟩
        | ok w => exact ih fid fname fage (some w) habs
    · exact ih fid fname fage factive habs

theorem visitMap_err_age :
    ∀ (kvs : List (String × Json)) (fid : Option Int) (fname femail : Option String)
      (factive : Option Bool),
      "age" ∉ kvs.map Prod.fst →
      ∃ e, visitMap kvs fid fname femail none factive = .error e := by
  intro kvs
  induction kvs with
  | nil =>
    intro fid fname femail factive _
    cases fid <;> cases fname <;> cases femail <;> exact ⟨_, rfl⟩
  | cons kv rest ih =>
    obtain ⟨k, v⟩ := kv
    intro fid fname femail factive habs
    simp only [List.map_cons, List.mem_cons, not_or] at habs
    obtain ⟨hne, habs⟩ := habs
    simp only [visitMap]
    split_ifs with h1 h2 h3 h4 h5
    · cases fid with
      | some a => exact ⟨_, rfl⟩
      | none =>
        cases hv : asI32 v with
        | error e => exact ⟨_, rfl⟩
        | ok w => exact ih (some w) fname femail factive habs
    · cases fname with
      | some a => exact ⟨_, rfl⟩
      | none =>
        cases hv : asStr v with
        | error e => exact ⟨_, rfl⟩
        | ok w => exact ih fid (some w) femail factive habs
    · cases femail with
      | some a => exact ⟨_, rfl⟩
      | none =>
        cases hv : asStr v with
        | error e => exact ⟨_, rfl⟩
        | ok w => exact ih fid fname (some w) factive habs
    · exact absurd h4.symm hne
    · cases factive with
      | some a => exact ⟨_, rfl⟩
      | none =>
        cases hv : asBool v with
        | error e => exact ⟨_, rfl⟩
        | ok w => exact ih fid fname femail (some w) habs
    · exact ih fid fname femail factive habs

theorem visitMap_err_active :
    ∀ (kvs : List (String × Json)) (fid : Option Int) (fname femail : Option String)
      (fage : Option Int),
      "active" ∉ kvs.map Prod.fst →
      ∃ e, visitMap kvs fid fname femail fage none = .error e := by
  intro kvs
  induction kvs with
  | nil =>
    intro fid fname femail fage _
    cases fid <;> cases fname <;> cases femail <;> cases fage <;> exact ⟨_, rfl⟩
  | cons kv rest ih =>
    obtain ⟨k, v⟩ := kv
    intro fid fname femail fage habs
    simp only [List.map_cons, List.mem_cons, not_or] at habs
    obtain ⟨hne, habs⟩ := habs
    simp only [visitMap]
    split_ifs with h1 h2 h3 h4 h5
    · cases fid with
      | some a => exact ⟨_, rfl⟩
      | none =>
        cases hv : asI32 v with
        | error e => exact ⟨_, rfl⟩
        | ok w => exact ih (some w) fname femail fage habs
    · cases fname with
      | some a => exact ⟨_, rfl⟩
      | none =>
        cases hv : asStr v with
        | error e => exact ⟨_, rfl⟩
        | ok w => exact ih fid (some w) femail fage habs
    · cases femail with
      | some a => exact ⟨_, rfl⟩
      | none =>
        cases hv : asStr v with
        | error e => exact ⟨_, rfl⟩
        | ok w => exact ih fid fname (some w) fage habs
    · cases fage with
      | some a => exact ⟨_, rfl⟩
      | none =>
        cases hv : asI32 v with
        | error e => exact ⟨_, rfl⟩
        | ok w => exact ih fid fname femail (some w) habs
    · exact absurd h5.symm hne
    · exact ih fid fname femail fage habs

theorem visitMap_err_mismatch :
    ∀ (kvs : List (String × Json)) (fid : Option Int) (fname femail : Option String)
      (fage : Option Int) (factive : Option Bool) (k : String) (v : Json),
      (k, v) ∈ kvs → k ∈ fieldKeys → fieldTypeOk k v = false →
      ∃ e, visitMap kvs fid fname femail fage factive = .error e := by
  intro kvs
  induction kvs with
  | nil => intro _ _ _ _ _ k v hmem _ _; simp at hmem
  | cons kv rest ih =>
    obtain ⟨k', v'⟩ := kv
    intro fid fname femail fage factive k v hmem hk hmis
    rcases List.mem_cons.mp hmem with heq | hmem'
    · obtain ⟨rfl, rfl⟩ : k = k' ∧ v = v' := by
        simpa [Prod.ext_iff] using heq
      simp only [visitMap]
      split_ifs with h1 h2 h3 h4 h5
      · subst h1
        cases fid with
        | some a => exact ⟨_, rfl⟩
        | none =>
          obtain ⟨e, he⟩ := asI32_err_of_mismatch (.inl rfl) hmis
          rw [he]
          exact ⟨_, rfl⟩
      · subst h2
        cases fname with
        | some a => exact ⟨_, rfl⟩
        | none =>
          obtain ⟨e, he⟩ := asStr_err_of_mismatch (.inl rfl) hmis
          rw [he]
          exact ⟨_, rfl⟩
      · subst h3
        cases femail with
        | some a => exact ⟨_, rfl⟩
        | none =>
          obtain ⟨e, he⟩ := asStr_err_of_mismatch (.inr rfl) hmis
          rw [he]
          exact ⟨_, rfl⟩
      · subst h4
        cases fage with
        | some a => exact ⟨_, rfl⟩
        | none =>
          obtain ⟨e, he⟩ := asI32_err_of_mismatch (.inr rfl) hmis
          rw [he]
          exact ⟨_, rfl⟩
      · subst h5
        cases factive with
        | some a => exact ⟨_, rfl⟩
        | none =>
          obtain ⟨e, he⟩ := asBool_err_of_mismatch hmis
          rw [he]
          exact ⟨_, rfl⟩
      · simp only [fieldKeys, List.mem_cons, List.not_mem_nil, or_false] at hk
        tauto
    · simp only [visitMap]
      split_ifs with h1 h2 h3 h4 h5
      · cases fid with
        | some a => exact ⟨_, rfl⟩
        | none =>
          cases hv : asI32 v' with
          | error e => exact ⟨_, rfl⟩
          | ok w => exact ih (some w) fname femail fage factive k v hmem' hk hmis
      · cases fname with
        | some a => exact ⟨_, rfl⟩
        | none =>
          cases hv : asStr v' with
          | error e => exact ⟨_, rfl⟩
          | ok w => exact ih fid (some w) femail fage factive k v hmem' hk hmis
      · cases femail with
        | some a => exact ⟨_, rfl⟩
        | none =>
          cases hv : asStr v' with
          | error e => exact ⟨_, rfl⟩
          | ok w => exact ih fid fname (some w) fage factive k v hmem' hk hmis
      · cases fage with
        | some a => exact ⟨_, rfl⟩
        | none =>
          cases hv : asI32 v' with
          | error e => exact ⟨_, rfl⟩
          | ok w => exact ih fid fname femail (some w) factive k v hmem' hk hmis
      · cases factive with
        | some a => exact ⟨_, rfl⟩
        | none =>
          cases hv : asBool v' with
          | error e => exact ⟨_, rfl⟩
          | ok w => exact ih fid fname femail fage (some w) k v hmem' hk hmis
      · exact ih fid fname femail fage factive k v hmem' hk hmis

theorem from_json_err_invalid (s : String) (h : jsonParse s.data = none) :
    ∃ e, User.from_json s = .error e := by
  rw [User.from_json, h]
  exact ⟨_, rfl⟩

theorem from_json_err_missing (s : String) (kvs : List (String × Json)) (rest : List Char)
    (k : String) (hparse : jsonParse s.data = some (.jobj kvs, rest))
    (hk : k ∈ fieldKeys) (habs : k ∉ kvs.map Prod.fst) :
    ∃ e, User.from_json s = .error e := by
  rw [User.from_json, hparse]
  show ∃ e, (match skipWs rest with
    | [] => userFromJson (.jobj kvs)
    | _ => Except.error "trailing characters") = .error e
  cases hws : skipWs rest with
  | cons c t => exact ⟨_, rfl⟩
  | nil =>
    simp only [fieldKeys, List.mem_cons, List.not_mem_nil, or_false] at hk
    rcases hk with rfl | rfl | rfl | rfl | rfl
    · exact visitMap_err_id kvs none none none none habs
    · exact visitMap_err_name kvs none none none none habs
    · exact visitMap_err_email kvs none none none none habs
    · exact visitMap_err_age kvs none none none none habs
    · exact visitMap_err_active kvs none none none none habs

theorem from_json_err_mismatch (s : String) (kvs : List (String × Json)) (rest : List Char)
    (k : String) (v : Json) (hparse : jsonParse s.data = some (.jobj kvs, rest))
    (hmem : (k, v) ∈ kvs) (hk : k ∈ fieldKeys) (hmis : fieldTypeOk k v = false) :
    ∃ e, User.from_json s = .error e := by
  rw [User.from_json, hparse]
  show ∃ e, (match skipWs rest with
    | [] => userFromJson (.jobj kvs)
    | _ => Except.error "trailing characters") = .error e
  cases hws : skipWs rest with
  | cons c t => exact ⟨_, rfl⟩
  | nil => exact visitMap_err_mismatch kvs none none none none none k v hmem hk hmis

/-! ## Filling the User from an object with unknown keys -/

theorem asI32_jint {n : Int} (h : inI32 n) : asI32 (.jint n) = .ok n := by
  obtain ⟨h1, h2⟩ := h
  norm_num at h1 h2
  simp [asI32, h1, h2]

/-- State of one field slot during the map fold: either still empty with
exactly one binding of its key (to `jv`) remaining, or already filled with
the final value and no binding of its key remaining. -/
def FieldState {α : Type} (key : String) (jv : Json) (s : Option α) (v : α)
    (kvs : List (String × Json)) : Prop :=
  (s = none ∧ kvs.filter (fun p => p.1 = key) = [(key, jv)]) ∨
  (s = some v ∧ kvs.filter (fun p => p.1 = key) = [])

theorem FieldState_cons_ne {α : Type} {key : String} {jv : Json} {s : Option α} {v : α}
    {k : String} {w : Json} {rest : List (String × Json)} (h : ¬(k = key)) :
    FieldState key jv s v ((k, w) :: rest) ↔ FieldState key jv s v rest := by
  simp [FieldState, List.filter_cons, h]

theorem FieldState_cons_self {α : Type} {key : String} {jv : Json} {s : Option α} {v : α}
    {w : Json} {rest : List (String × Json)}
    (h : FieldState key jv s v ((key, w) :: rest)) :
    s = none ∧ w = jv ∧ FieldState key jv (some v) v rest := by
  rcases h with ⟨hs, hf⟩ | ⟨hs, hf⟩ <;>
    simp only [List.filter_cons, decide_eq_true_eq, eq_self_iff_true, if_true, List.cons.injEq,
      Prod.mk.injEq, true_and, reduceCtorEq] at hf
  · exact ⟨hs, hf.1, .inr ⟨rfl, hf.2⟩⟩

theorem visitMap_fill :
    ∀ (kvs : List (String × Json)) (fid : Option Int) (fname femail : Option String)
      (fage : Option Int) (factive : Option Bool) (i a : Int) (nm em : String) (act : Bool),
      inI32 i → inI32 a →
      FieldState "id" (.jint i) fid i kvs →
      FieldState "name" (.jstr nm) fname nm kvs →
      FieldState "email" (.jstr em) femail em kvs →
      FieldState "age" (.jint a) fage a kvs →
      FieldState "active" (.jbool act) factive act kvs →
      visitMap kvs fid fname femail fage factive = .ok ⟨i, nm, em, a, act⟩ := by
  intro kvs
  induction kvs with
  | nil =>
    intro fid fname femail fage factive i a nm em act _ _ h1 h2 h3 h4 h5
    rcases h1 with ⟨-, hf⟩ | ⟨rfl, -⟩
    · simp at hf
    rcases h2 with ⟨-, hf⟩ | ⟨rfl, -⟩
    · simp at hf
    rcases h3 with ⟨-, hf⟩ | ⟨rfl, -⟩
    · simp at hf
    rcases h4 with ⟨-, hf⟩ | ⟨rfl, -⟩
    · simp at hf
    rcases h5 with ⟨-, hf⟩ | ⟨rfl, -⟩
    · simp at hf
    rfl
  | cons kv rest ih =>
    obtain ⟨k, w⟩ := kv
    intro fid fname femail fage factive i a nm em act hi ha h1 h2 h3 h4 h5
    simp only [visitMap]
    split_ifs with hk1 hk2 hk3 hk4 hk5
    · subst hk1
      obtain ⟨rfl, rfl, h1'⟩ := FieldState_cons_self h1
      rw [asI32_jint hi]
      exact ih (some i) fname femail fage factive i a nm em act hi ha h1'
        ((FieldState_cons_ne (by decide)).mp h2) ((FieldState_cons_ne (by decide)).mp h3)
        ((FieldState_cons_ne (by decide)).mp h4) ((FieldState_cons_ne (by decide)).mp h5)
    · subst hk2
      obtain ⟨rfl, rfl, h2'⟩ := FieldState_cons_self h2
      exact ih fid (some nm) femail fage factive i a nm em act hi ha
        ((FieldState_cons_ne (by decide)).mp h1) h2'
        ((FieldState_cons_ne (by decide)).mp h3) ((FieldState_cons_ne (by decide)).mp h4)
        ((FieldState_cons_ne (by decide)).mp h5)
    · subst hk3
      obtain ⟨rfl, rfl, h3'⟩ := FieldState_cons_self h3
      exact ih fid fname (some em) fage factive i a nm em act hi ha
        ((FieldState_cons_ne (by decide)).mp h1) ((FieldState_cons_ne (by decide)).mp h2)
        h3' ((FieldState_cons_ne (by decide)).mp h4) ((FieldState_cons_ne (by decide)).mp h5)
    · subst hk4
      obtain ⟨rfl, rfl, h4'⟩ := FieldState_cons_self h4
      rw [asI32_jint ha]
      exact ih fid fname femail (some a) factive i a nm em act hi ha
        ((FieldState_cons_ne (by decide)).mp h1) ((FieldState_cons_ne (by decide)).mp h2)
        ((FieldState_cons_ne (by decide)).mp h3) h4'
        ((FieldState_cons_ne (by decide)).mp h5)
    · subst hk5
      obtain ⟨rfl, rfl, h5'⟩ := FieldState_cons_self h5
      exact ih fid fname femail fage (some act) i a nm em act hi ha
        ((FieldState_cons_ne (by decide)).mp h1) ((FieldState_cons_ne (by decide)).mp h2)
        ((FieldState_cons_ne (by decide)).mp h3) ((FieldState_cons_ne (by decide)).mp h4) h5'
    · exact ih fid fname femail fage factive i a nm em act hi ha
        ((FieldState_cons_ne hk1).mp h1) ((FieldState_cons_ne hk2).mp h2)
        ((FieldState_cons_ne hk3).mp h3) ((FieldState_cons_ne hk4).mp h4)
        ((FieldState_cons_ne hk5).mp h5)

/-! ## Processing and benchmark function lemmas -/

theorem extractI32_vint {n : Int} (h : inI32 n) : extractI32 (.vint n) = some n := by
  obtain ⟨h1, h2⟩ := h
  norm_num at h1 h2
  simp [extractI32, h1, h2]

theorem getattr_toPyObj_active (u : User) :
    getattr u.toPyObj "active" = some (.vbool u.active) := rfl

theorem getattr_toPyObj_age (u : User) :
    getattr u.toPyObj "age" = some (.vint u.age) := rfl

/-- A mismatched entity makes the fail-fast fold of the plain indirect
processing function abort with an error, whatever came before it. -/
theorem process_pydantic_go_err (us2 : List PyObj) (u : PyObj)
    (h : (∃ v, getattr u "active" = some v ∧ extractBool v = none) ∨
         (getattr u "active" = some (.vbool true) ∧
           ∃ w, getattr u "age" = some w ∧ extractI32 w = none)) :
    ∀ (us1 : List PyObj) (ta ac : Int),
      ∃ e, process_pydantic_users.go (us1 ++ u :: us2) ta ac = .error e := by
  intro us1
  induction us1 with
  | nil =>
    intro ta ac
    rcases h with ⟨v, hv, hb⟩ | ⟨hv, w, hw, hx⟩
    · exact ⟨"TypeError: expected bool for active", by
        simp [process_pydantic_users.go, hv, hb]⟩
    · exact ⟨"TypeError: expected i32 for age", by
        simp [process_pydantic_users.go, hv, hw, hx, extractBool]⟩
  | cons w us1 ih =>
    intro ta ac
    cases hv : getattr w "active" with
    | none =>
      exact ⟨"AttributeError: active", by simp [process_pydantic_users.go, hv]⟩
    | some v =>
      cases hb : extractBool v with
      | none =>
        exact ⟨"TypeError: expected bool for active", by
          simp [process_pydantic_users.go, hv, hb]⟩
      | some b =>
        cases b with
        | false =>
          obtain ⟨e, he⟩ := ih ta ac
          refine ⟨e, ?_⟩
          simp only [List.cons_append, process_pydantic_users.go, hv, hb]
          simpa using he
        | true =>
          cases hw : getattr w "age" with
          | none =>
            exact ⟨"AttributeError: age", by simp [process_pydantic_users.go, hv, hb, hw]⟩
          | some x =>
            cases hx : extractI32 x with
            | none =>
              exact ⟨"TypeError: expected i32 for age", by
                simp [process_pydantic_users.go, hv, hb, hw, hx]⟩
            | some age =>
              obtain ⟨e, he⟩ := ih (ta + age) (ac + 1)
              refine ⟨e, ?_⟩
              simp only [List.cons_append, process_pydantic_users.go, hv, hb, hw, hx]
              simpa using he

/-- The per-entity outcome of the registered benchmark's soft-failure
chain: the age counted for the entity, when any. -/
def bench_age (u : PyObj) : Option Int :=
  match getattr u "active" with
  | none => none
  | some v =>
    match extractBool v with
    | none => none
    | some active =>
      if active then
        match getattr u "age" with
        | none => none
        | some w => extractI32 w
      else none

theorem benchmark_go_spec :
    ∀ (us : List PyObj) (ta ac er : Int),
      benchmark_pydantic_process.go us ta ac er =
        (ta + (us.filterMap bench_age).sum, ac + ((us.filterMap bench_age).length : Int),
         er + ((us.countP (fun u => (getattr u "active").isNone)) : Int)) := by
  intro us
  induction us with
  | nil => intro ta ac er; simp [benchmark_pydantic_process.go]
  | cons u rest ih =>
    intro ta ac er
    cases hv : getattr u "active" with
    | none =>
      have hb : bench_age u = none := by simp [bench_age, hv]
      simp only [benchmark_pydantic_process.go, hv, ih]
      simp [List.filterMap_cons, List.countP_cons, hb, hv, Prod.ext_iff]
      omega
    | some v =>
      cases hx : extractBool v with
      | none =>
        have hb : bench_age u = none := by simp [bench_age, hv, hx]
        simp only [benchmark_pydantic_process.go, hv, hx, ih]
        simp [List.filterMap_cons, List.countP_cons, hb, hv, hx, Prod.ext_iff]
      | some b =>
        cases b with
        | false =>
          have hb : bench_age u = none := by simp [bench_age, hv, hx]
          simp only [benchmark_pydantic_process.go, hv, hx, ih]
          simp [List.filterMap_cons, List.countP_cons, hb, hv, hx, Prod.ext_iff]
        | true =>
          cases hw : getattr u "age" with
          | none =>
            have hb : bench_age u = none := by simp [bench_age, hv, hx, hw]
            simp only [benchmark_pydantic_process.go, hv, hx, hw, ih]
            simp [List.filterMap_cons, List.countP_cons, hb, hv, hx, hw, Prod.ext_iff]
          | some x =>
            cases hy : extractI32 x with
            | none =>
              have hb : bench_age u = none := by simp [bench_age, hv, hx, hw, hy]
              simp only [benchmark_pydantic_process.go, hv, hx, hw, hy, ih]
              simp [List.filterMap_cons, List.countP_cons, hb, hv, hx, hw, hy, Prod.ext_iff]
            | some age =>
              have hb : bench_age u = some age := by simp [bench_age, hv, hx, hw, hy]
              simp only [benchmark_pydantic_process.go, hv, hx, hw, hy, ih]
              simp [List.filterMap_cons, List.countP_cons, hb, hv, hx, hw, hy, Prod.ext_iff]
              omega

/-! ## Agreement of the four paths on valid users -/

theorem pyo3_go_spec :
    ∀ (us : List User) (ta ac : Int),
      process_pyo3_users.go us ta ac = (ta + (spec_totals us).1, ac + (spec_totals us).2) := by
  intro us
  induction us with
  | nil => intro ta ac; simp [process_pyo3_users.go, spec_totals]
  | cons u rest ih =>
    intro ta ac
    rw [process_pyo3_users.go, spec_totals]
    cases ha : u.active with
    | false => rw [if_neg (by simp [ha]), if_neg (by simp [ha]), ih]
    | true =>
      rw [if_pos (by simp [ha]), if_pos (by simp [ha]), ih]
      simp [Prod.ext_iff]
      omega

theorem benchmark_pyo3_go_spec :
    ∀ (us : List User) (ta ac : Int),
      benchmark_pyo3_process.go us ta ac = (ta + (spec_totals us).1, ac + (spec_totals us).2) := by
  intro us
  induction us with
  | nil => intro ta ac; simp [benchmark_pyo3_process.go, spec_totals]
  | cons u rest ih =>
    intro ta ac
    rw [benchmark_pyo3_process.go, spec_totals]
    cases ha : u.active with
    | false => rw [if_neg (by simp [ha]), if_neg (by simp [ha]), ih]
    | true =>
      rw [if_pos (by simp [ha]), if_pos (by simp [ha]), ih]
      simp [Prod.ext_iff]
      omega

theorem pydantic_go_spec :
    ∀ (us : List User), (∀ u ∈ us, inI32 u.age) → ∀ (ta ac : Int),
      process_pydantic_users.go (us.map User.toPyObj) ta ac =
        .ok (ta + (spec_totals us).1, ac + (spec_totals us).2) := by
  intro us
  induction us with
  | nil => intro _ ta ac; simp [process_pydantic_users.go, spec_totals]
  | cons u rest ih =>
    intro h ta ac
    have hu := h u (by simp)
    have hrest : ∀ w ∈ rest, inI32 w.age := fun w hw => h w (by simp [hw])
    simp only [List.map_cons, process_pydantic_users.go, getattr_toPyObj_active,
      getattr_toPyObj_age, extractBool, extractI32_vint hu]
    rw [spec_totals]
    cases ha : u.active with
    | false =>
      rw [if_neg (by simp [ha]), if_neg (by simp [ha])]
      exact ih hrest ta ac
    | true =>
      rw [if_pos (by simp [ha]), if_pos (by simp [ha])]
      rw [ih hrest]
      simp [Prod.ext_iff]
      omega

theorem bench_age_toPyObj (u : User) (h : inI32 u.age) :
    bench_age u.toPyObj = if u.active then some u.age else none := by
  simp [bench_age, getattr_toPyObj_active, getattr_toPyObj_age, extractBool, extractI32_vint h]

theorem benchmark_pydantic_go_spec :
    ∀ (us : List User), (∀ u ∈ us, inI32 u.age) → ∀ (ta ac er : Int),
      benchmark_pydantic_process.go (us.map User.toPyObj) ta ac er =
        (ta + (spec_totals us).1, ac + (spec_totals us).2, er) := by
  intro us
  induction us with
  | nil => intro _ ta ac er; simp [benchmark_pydantic_process.go, spec_totals]
  | cons u rest ih =>
    intro h ta ac er
    have hu := h u (by simp)
    have hrest : ∀ w ∈ rest, inI32 w.age := fun w hw => h w (by simp [hw])
    simp only [List.map_cons, benchmark_pydantic_process.go, getattr_toPyObj_active,
      getattr_toPyObj_age, extractBool, extractI32_vint hu]
    rw [spec_totals]
    cases ha : u.active with
    | false =>
      rw [if_neg (by simp [ha]), if_neg (by simp [ha])]
      exact ih hrest ta ac er
    | true =>
      rw [if_pos (by simp [ha]), if_pos (by simp [ha])]
      rw [ih hrest]
      simp [Prod.ext_iff]
      omega

theorem try_get_active_age_toPyObj (u : User) (h : inI32 u.age) :
    try_get_active_age u.toPyObj = .ok (if u.active then some u.age else none) := by
  simp only [try_get_active_age, getattr_toPyObj_active, getattr_toPyObj_age,
    extractBool, extractI32_vint h]
  cases ha : u.active with
  | false => simp [ha]
  | true => simp [ha]

theorem benchmark_file_go_spec :
    ∀ (us : List User), (∀ u ∈ us, inI32 u.age) → ∀ (ta ac er : Int),
      benchmark_pydantic_process_file.go (us.map User.toPyObj) ta ac er =
        (ta + (spec_totals us).1, ac + (spec_totals us).2, er) := by
  intro us
  induction us with
  | nil => intro _ ta ac er; simp [benchmark_pydantic_process_file.go, spec_totals]
  | cons u rest ih =>
    intro h ta ac er
    have hu := h u (by simp)
    have hrest : ∀ w ∈ rest, inI32 w.age := fun w hw => h w (by simp [hw])
    cases ha : u.active with
    | false =>
      have ht : try_get_active_age u.toPyObj = .ok none := by
        rw [try_get_active_age_toPyObj u hu, ha]
        simp
      simp only [List.map_cons, benchmark_pydantic_process_file.go, ht, ih hrest]
      rw [spec_totals]
      simp [ha]
    | true =>
      have ht : try_get_active_age u.toPyObj = .ok (some u.age) := by
        rw [try_get_active_age_toPyObj u hu, ha]
        simp
      simp only [List.map_cons, benchmark_pydantic_process_file.go, ht, ih hrest]
      rw [spec_totals]
      simp [ha, Prod.ext_iff]
      omega

/-! ## Whitespace stripping (for the pretty/compact comparison) -/

/-- Remove every JSON whitespace character (space, tab, LF, CR). -/
def stripWs (cs : List Char) : List Char := cs.filter (fun c => !isWsChar c)

theorem stripWs_append (a b : List Char) : stripWs (a ++ b) = stripWs a ++ stripWs b :=
  List.filter_append a b

theorem stripWs_intChars (i : Int) : stripWs (intChars i) = intChars i := by
  apply List.filter_eq_self.mpr
  intro c hc
  have hcd : c = '-' ∨ isDigit c = true := by
    rw [intChars] at hc
    split_ifs at hc with hi
    · rcases List.mem_cons.mp hc with rfl | hc
      · exact .inl rfl
      · exact .inr (natDigitsAux_all_digits _ _ _ hc)
    · exact .inr (natDigitsAux_all_digits _ _ _ hc)
  simp [(numHead_facts hcd).1]

theorem hexDigitChar_not_ws {m : Nat} (h : m < 16) : isWsChar (hexDigitChar m) = false := by
  interval_cases m <;> rfl

theorem escList_no_ws :
    ∀ (s : List Char), (∀ c ∈ s, c ≠ ' ') → ∀ c ∈ escList s, isWsChar c = false := by
  intro s
  induction s with
  | nil => intro _ c hc; simp [escList] at hc
  | cons a s ih =>
    intro h c hc
    rw [escList] at hc
    rcases List.mem_append.mp hc with hc | hc
    · have ha : a ≠ ' ' := h a (by simp)
      rw [escapeChar] at hc
      split_ifs at hc with h1 h2 h3 h4 h5 h6 h7 h8
      · simp at hc; rcases hc with rfl | rfl <;> rfl
      · simp at hc; subst hc; rfl
      · simp at hc; rcases hc with rfl | rfl <;> rfl
      · simp at hc; rcases hc with rfl | rfl <;> rfl
      · simp at hc; rcases hc with rfl | rfl <;> rfl
      · simp at hc; rcases hc with rfl | rfl <;> rfl
      · simp at hc; rcases hc with rfl | rfl <;> rfl
      · simp at hc
        rcases hc with rfl | rfl | rfl | rfl | rfl
        · rfl
        · rfl
        · rfl
        · exact hexDigitChar_not_ws (by omega)
        · exact hexDigitChar_not_ws (by omega)
      · simp at hc
        subst hc
        have hge : 32 ≤ c.toNat := by omega
        have hsp : ¬(c = ' ') := ha
        simp only [isWsChar, Bool.or_eq_false_iff, decide_eq_false_iff_not]
        exact ⟨⟨⟨hsp, char_ne_of_toNat_ne (show c.toNat ≠ 10 by omega)⟩,
          char_ne_of_toNat_ne (show c.toNat ≠ 9 by omega)⟩,
          char_ne_of_toNat_ne (show c.toNat ≠ 13 by omega)⟩
    · exact ih (fun d hd => h d (by simp [hd])) c hc

theorem stripWs_escList (s : List Char) (h : ∀ c ∈ s, c ≠ ' ') :
    stripWs (escList s) = escList s := by
  apply List.filter_eq_self.mpr
  intro c hc
  simp [escList_no_ws s h c hc]

theorem stripWs_boolChars (b : Bool) : stripWs (boolChars b) = boolChars b := by
  cases b <;> rfl

theorem stripWs_pretty (u : User) (hn : ∀ c ∈ u.name.data, c ≠ ' ')
    (he : ∀ c ∈ u.email.data, c ≠ ' ') :
    stripWs (prettyChars u) = compactChars u := by
  rw [prettyChars, compactChars]
  rw [stripWs_append, stripWs_append, stripWs_append, stripWs_append, stripWs_append,
    stripWs_append, stripWs_append, stripWs_append, stripWs_append, stripWs_append]
  rw [show stripWs ("\x7b\n  \"id\": ".data) = "\x7b\"id\":".data from rfl,
    show stripWs (",\n  \"name\": \"".data) = ",\"name\":\"".data from rfl,
    show stripWs ("\",\n  \"email\": \"".data) = "\",\"email\":\"".data from rfl,
    show stripWs ("\",\n  \"age\": ".data) = "\",\"age\":".data from rfl,
    show stripWs (",\n  \"active\": ".data) = ",\"active\":".data from rfl,
    show stripWs ("\n\x7d".data) = "\x7d".data from rfl]
  rw [stripWs_intChars u.id, stripWs_intChars u.age, stripWs_escList _ hn,
    stripWs_escList _ he, stripWs_boolChars]

theorem pretty_has_newline (u : User) : '\n' ∈ prettyChars u := by
  rw [prettyChars]
  exact List.mem_append_left _ (List.mem_append_left _ (List.mem_append_left _
    (List.mem_append_left _ (List.mem_append_left _ (List.mem_append_left _
    (List.mem_append_left _ (List.mem_append_left _ (List.mem_append_left _
    (List.mem_append_left _ (by decide))))))))))

/-! ## Claim theorems -/

/-- C3 counterexample: in plain process_pydantic_users an entity whose
active attribute exists but is not a boolean is NOT silently skipped: the
call aborts with an error instead of returning the totals that skipping
would produce. -/
theorem C3_counterexample :
    process_pydantic_users [⟨[("active", .vint 1)]⟩] =
        .error "TypeError: expected bool for active" ∧
      process_pydantic_users [⟨[("active", .vint 1)]⟩] ≠ .ok (0, 0) :=
  ⟨rfl, by
    intro h
    rw [show process_pydantic_users [⟨[("active", PyVal.vint 1)]⟩] =
      (Except.error "TypeError: expected bool for active" : Except String (Int × Int))
      from rfl] at h
    exact Except.noConfusion h⟩

/-- C3 amended: in plain indirect-path processing, an entity whose active
member exists but is not a boolean — or whose active is true and whose age
member is present but mistyped — aborts the entire operation: the mismatch
is escalated to the caller as an error (from this or an earlier entity)
and nothing is silently skipped. -/
theorem C3_plain_mismatch_aborts (us1 us2 : List PyObj) (u : PyObj)
    (h : (∃ v, getattr u "active" = some v ∧ extractBool v = none) ∨
         (getattr u "active" = some (.vbool true) ∧
           ∃ w, getattr u "age" = some w ∧ extractI32 w = none)) :
    ∃ e, process_pydantic_users (us1 ++ u :: us2) = .error e :=
  process_pydantic_go_err us2 u h us1 0 0

theorem C3_witness :
    ∃ e, process_pydantic_users ([] ++ ⟨[("active", .vint 1)]⟩ :: []) = .error e :=
  C3_plain_mismatch_aborts [] [] ⟨[("active", .vint 1)]⟩ (.inl ⟨.vint 1, rfl, rfl⟩)

/-- C4: in the registered indirect-path benchmark, errors counts exactly
the entities whose active lookup itself fails (attribute absent); an
entity whose looked-up active has a non-boolean type, or whose age is
absent or mistyped after active is true, contributes to neither total_age
nor active_count and to no error, and processing always continues over the
whole sequence (the result is a total function of all entities). -/
theorem C4_benchmark_error_asymmetry (users : List PyObj) :
    benchmark_pydantic_process users =
      ((users.filterMap bench_age).sum, ((users.filterMap bench_age).length : Int),
       ((users.countP (fun u => (getattr u "active").isNone)) : Int)) := by
  have h := benchmark_go_spec users 0 0 0
  simpa [benchmark_pydantic_process] using h

/-- C6: over a sequence of valid users the indirect and direct processing
functions and all benchmark variants agree: total_age is the sum of the
ages of exactly the active users and active_count their number, in
sequence order, and the indirect benchmarks report zero errors. -/
theorem C6_dual_path_agreement (users : List User) (h : ∀ u ∈ users, inI32 u.age) :
    process_pydantic_users (users.map User.toPyObj) = .ok (spec_totals users) ∧
      process_pyo3_users users = spec_totals users ∧
      benchmark_pydantic_process (users.map User.toPyObj) =
        ((spec_totals users).1, (spec_totals users).2, 0) ∧
      benchmark_pyo3_process users = spec_totals users ∧
      benchmark_pydantic_process_file (users.map User.toPyObj) =
        ((spec_totals users).1, (spec_totals users).2, 0) := by
  refine ⟨?_, ?_, ?_, ?_, ?_⟩
  · have hg := pydantic_go_spec users h 0 0
    simpa [process_pydantic_users] using hg
  · have hg := pyo3_go_spec users 0 0
    simpa [process_pyo3_users] using hg
  · have hg := benchmark_pydantic_go_spec users h 0 0 0
    simpa [benchmark_pydantic_process] using hg
  · have hg := benchmark_pyo3_go_spec users 0 0
    simpa [benchmark_pyo3_process] using hg
  · have hg := benchmark_file_go_spec users h 0 0 0
    simpa [benchmark_pydantic_process_file] using hg

theorem C6_witness :
    process_pydantic_users (([⟨1, "a", "b", 30, true⟩, ⟨2, "c", "d", 99, false⟩,
          ⟨3, "e", "f", 10, true⟩] : List User).map User.toPyObj) = .ok (40, 2) ∧
      process_pyo3_users [⟨1, "a", "b", 30, true⟩, ⟨2, "c", "d", 99, false⟩,
          ⟨3, "e", "f", 10, true⟩] = (40, 2) := by
  have h := C6_dual_path_agreement
    [⟨1, "a", "b", 30, true⟩, ⟨2, "c", "d", 99, false⟩, ⟨3, "e", "f", 10, true⟩]
    (by decide)
  exact ⟨h.1, h.2.1⟩

/-- C8 counterexample: for a User whose name contains a space, stripping
all whitespace from the pretty encoding does not reproduce the compact
encoding (the space inside the string value, which serde never escapes, is
stripped too). -/
theorem C8_counterexample :
    stripWs (User.json_pretty ⟨1, "A B", "e", 2, true⟩).data ≠
      (User.json ⟨1, "A B", "e", 2, true⟩).data := by decide

/-- C8 amended: for every User whose name and email contain no space
character, the pretty encoding with all whitespace stripped is
byte-identical to the compact encoding (all other whitespace characters
inside string values are emitted escaped, so only literal spaces break the
equality); and for every User the pretty encoding contains a newline. -/
theorem C8_pretty_strip_eq :
    (∀ u : User, (∀ c ∈ u.name.data, c ≠ ' ') → (∀ c ∈ u.email.data, c ≠ ' ') →
      stripWs (User.json_pretty u).data = (User.json u).data) ∧
    ∀ u : User, '\n' ∈ (User.json_pretty u).data :=
  ⟨fun u hn he => stripWs_pretty u hn he, fun u => pretty_has_newline u⟩

theorem C8_witness :
    stripWs (User.json_pretty ⟨1, "Alice", "alice@example.com", 30, true⟩).data =
        (User.json ⟨1, "Alice", "alice@example.com", 30, true⟩).data ∧
      '\n' ∈ (User.json_pretty ⟨1, "Alice", "alice@example.com", 30, true⟩).data :=
  ⟨C8_pretty_strip_eq.1 ⟨1, "Alice", "alice@example.com", 30, true⟩ (by decide) (by decide),
   C8_pretty_strip_eq.2 ⟨1, "Alice", "alice@example.com", 30, true⟩⟩

/-- C1: For every User u — all 32-bit values of id and age, including
INT32_MIN and INT32_MAX, and all text values of name and email, including
the empty string — decoding the compact JSON encoding of u yields a User
equal to u in all five fields, and the same holds for the pretty-printed
encoding. -/
theorem C1_json_round_trip (u : User) (hid : inI32 u.id) (hage : inI32 u.age) :
    User.from_json (User.json u) = .ok u ∧ User.from_json (User.json_pretty u) = .ok u :=
  ⟨from_json_json u hid hage, from_json_json_pretty u hid hage⟩

theorem C1_witness :
    User.from_json (User.json ⟨-2147483648, "", "", 2147483647, false⟩) =
        .ok ⟨-2147483648, "", "", 2147483647, false⟩ ∧
      User.from_json (User.json_pretty ⟨-2147483648, "", "", 2147483647, false⟩) =
        .ok ⟨-2147483648, "", "", 2147483647, false⟩ :=
  C1_json_round_trip ⟨-2147483648, "", "", 2147483647, false⟩ (by decide) (by decide)

/-- C5: from_json fails with a DecodingError when the input is not valid
JSON, when the parsed object is missing any of the five required keys, or
when any binding of a required key has a value of the wrong type; no
missing field is defaulted (a missing key always errors). -/
theorem C5_decode_error_conditions :
    (∀ s : String, jsonParse s.data = none → ∃ e, User.from_json s = .error e) ∧
    (∀ (s : String) (kvs : List (String × Json)) (rest : List Char) (k : String),
      jsonParse s.data = some (.jobj kvs, rest) → k ∈ fieldKeys → k ∉ kvs.map Prod.fst →
      ∃ e, User.from_json s = .error e) ∧
    (∀ (s : String) (kvs : List (String × Json)) (rest : List Char) (k : String) (v : Json),
      jsonParse s.data = some (.jobj kvs, rest) → (k, v) ∈ kvs → k ∈ fieldKeys →
      fieldTypeOk k v = false → ∃ e, User.from_json s = .error e) :=
  ⟨from_json_err_invalid, from_json_err_missing, from_json_err_mismatch⟩

theorem C5_witness :
    (∃ e, User.from_json "not json" = .error e) ∧
    (∃ e, User.from_json "\x7b\"id\":1,\"name\":\"A\",\"email\":\"e\",\"active\":true\x7d" = .error e) ∧
    (∃ e, User.from_json "\x7b\"id\":1,\"name\":\"A\",\"email\":\"e\",\"age\":\"thirty\",\"active\":true\x7d" =
      .error e) :=
  ⟨C5_decode_error_conditions.1 "not json" rfl,
   C5_decode_error_conditions.2.1 "\x7b\"id\":1,\"name\":\"A\",\"email\":\"e\",\"active\":true\x7d"
     [("id", .jint 1), ("name", .jstr "A"), ("email", .jstr "e"), ("active", .jbool true)] []
     "age" rfl (by decide) (by decide),
   C5_decode_error_conditions.2.2 "\x7b\"id\":1,\"name\":\"A\",\"email\":\"e\",\"age\":\"thirty\",\"active\":true\x7d"
     [("id", .jint 1), ("name", .jstr "A"), ("email", .jstr "e"), ("age", .jstr "thirty"),
      ("active", .jbool true)] []
     "age" (.jstr "thirty") rfl (by simp) (by decide) rfl⟩

/-- C2 counterexample: a JSON object with the five correctly-typed keys
plus an additional key decodes successfully — extra keys are tolerated
(the derived deserializer has no deny-unknown-fields behavior), so the
claim that such inputs fail is false. -/
theorem C2_counterexample :
    User.from_json
        "\x7b\"id\":1,\"name\":\"A\",\"email\":\"e\",\"age\":2,\"active\":true,\"extra\":0\x7d" =
      .ok ⟨1, "A", "e", 2, true⟩ := rfl

/-- C2 amended: when the input parses to a JSON object in which each of the
five required keys appears exactly once with a correctly-typed value, any
additional keys are skipped and decoding succeeds with the User assembled
from the five recognized keys. -/
theorem C2_extra_keys_ignored (s : String) (kvs : List (String × Json))
    (i a : Int) (nm em : String) (act : Bool)
    (hparse : jsonParse s.data = some (.jobj kvs, []))
    (hi : inI32 i) (ha : inI32 a)
    (hid : kvs.filter (fun p => p.1 = "id") = [("id", .jint i)])
    (hnm : kvs.filter (fun p => p.1 = "name") = [("name", .jstr nm)])
    (hem : kvs.filter (fun p => p.1 = "email") = [("email", .jstr em)])
    (hag : kvs.filter (fun p => p.1 = "age") = [("age", .jint a)])
    (hac : kvs.filter (fun p => p.1 = "active") = [("active", .jbool act)]) :
    User.from_json s = .ok ⟨i, nm, em, a, act⟩ := by
  rw [User.from_json, hparse]
  show visitMap kvs none none none none none = .ok ⟨i, nm, em, a, act⟩
  exact visitMap_fill kvs none none none none none i a nm em act hi ha
    (.inl ⟨rfl, hid⟩) (.inl ⟨rfl, hnm⟩) (.inl ⟨rfl, hem⟩) (.inl ⟨rfl, hag⟩) (.inl ⟨rfl, hac⟩)

theorem C2_witness :
    User.from_json
        "\x7b\"id\":1,\"name\":\"A\",\"email\":\"e\",\"extra\":null,\"age\":2,\"active\":true\x7d" =
      .ok ⟨1, "A", "e", 2, true⟩ :=
  C2_extra_keys_ignored _
    [("id", .jint 1), ("name", .jstr "A"), ("email", .jstr "e"), ("extra", .jnull),
     ("age", .jint 2), ("active", .jbool true)]
    1 2 "A" "e" true rfl (by decide) (by decide) rfl rfl rfl rfl rfl

/-- C7: For every User u and every choice of name, email, age, active, the
User returned by model_copy has the same id as u and the four supplied
values in the remaining fields; id is never an argument of the operation. -/
theorem C7_model_copy_fields (u : User) (n e : String) (a : Int) (act : Bool) :
    (u.model_copy n e a act).id = u.id ∧ (u.model_copy n e a act).name = n ∧
      (u.model_copy n e a act).email = e ∧ (u.model_copy n e a act).age = a ∧
      (u.model_copy n e a act).active = act :=
  ⟨rfl, rfl, rfl, rfl, rfl⟩

/-- C9: Calculator.new(3.5).add(2.0) returns 5.5; the subsequent
multiply(2.0) returns 11.0; the subsequent reset() returns 0.0; and in
general every operation returns the calculator's value after the update. -/
theorem C9_calculator_chain :
    (∀ (c : Calculator) (x : ℚ), (c.add x).2 = (c.add x).1.value ∧ (c.add x).1.value = c.value + x) ∧
    (∀ (c : Calculator) (x : ℚ),
      (c.multiply x).2 = (c.multiply x).1.value ∧ (c.multiply x).1.value = c.value * x) ∧
    (∀ c : Calculator, c.reset.2 = c.reset.1.value ∧ c.reset.1.value = 0) ∧
    ((Calculator.new 3.5).add 2.0).2 = 5.5 ∧
    ((((Calculator.new 3.5).add 2.0).1).multiply 2.0).2 = 11.0 ∧
    ((((((Calculator.new 3.5).add 2.0).1).multiply 2.0).1).reset).2 = 0.0 := by
  refine ⟨fun c x => ⟨rfl, rfl⟩, fun c x => ⟨rfl, rfl⟩, fun c => ⟨rfl, rfl⟩, ?_, ?_, ?_⟩ <;>
    norm_num [Calculator.new, Calculator.add, Calculator.multiply, Calculator.reset]

/-- C10: model_copy takes the receiver by shared borrow and performs no
mutation: after the call the receiver is unchanged in all five fields, and
the result is the fresh User built by model_copy. -/
theorem C10_model_copy_frame (u : User) (n e : String) (a : Int) (act : Bool) :
    (u.model_copy_call n e a act).1 = u ∧
      (u.model_copy_call n e a act).1.id = u.id ∧
      (u.model_copy_call n e a act).1.name = u.name ∧
      (u.model_copy_call n e a act).1.email = u.email ∧
      (u.model_copy_call n e a act).1.age = u.age ∧
      (u.model_copy_call n e a act).1.active = u.active ∧
      (u.model_copy_call n e a act).2 = u.model_copy n e a act :=
  ⟨rfl, rfl, rfl, rfl, rfl, rfl, rfl⟩

end PyRustModule
